import Mathlib

/-!
Reverse proxy: header filter and forwarding handler.

A shallow embedding of `internal/proxy/proxy.go`.

* `http.Header` (a Go `map[string][]string`) is an association list; the order of the
  list is the order in which `range` visits the map, so a statement quantified
  over all lists covers every iteration order.
* Text is `String`; bytes written to a response body are `List Char`.
* The parts of the Go standard library the handler calls are modelled next to
  it: `CanonicalHeaderKey`, `Header.Add`, `Header.Set`, `http.NewRequest`,
  `http.Error`, `ResponseWriter.WriteHeader`, `ResponseWriter.Write`,
  `io.Copy`, and `url.Parse` and `URL.String` of net/url.
* `strconv.Quote` and the network round trip are taken as parameters (`Env`).
  So is `url.Parse` for the handler: what holds whatever `url.Parse` returns is
  stated for every `Env`, and what depends on the URL is stated for an `Env`
  whose `Parse` is the `Parse` modelled here.
-/

namespace Proxy

/-! ## net/textproto: canonical header keys -/

/-- Token bytes of RFC 7230 (`validHeaderFieldByte` of net/textproto): digits,
letters and the fifteen punctuation bytes of its mask. -/
def validHeaderFieldByte (c : Char) : Bool :=
  (48 ≤ c.toNat && c.toNat ≤ 57) || (65 ≤ c.toNat && c.toNat ≤ 90) ||
  (97 ≤ c.toNat && c.toNat ≤ 122) ||
  [33, 35, 36, 37, 38, 39, 42, 43, 45, 46, 94, 95, 96, 124, 126].contains c.toNat

/-- Byte `c - toLower` for a lower-case ASCII letter, `c` otherwise. -/
def upperByte (c : Char) : Char :=
  if 97 ≤ c.toNat ∧ c.toNat ≤ 122 then Char.ofNat (c.toNat - 32) else c

/-- Byte `c + toLower` for an upper-case ASCII letter, `c` otherwise. -/
def lowerByte (c : Char) : Char :=
  if 65 ≤ c.toNat ∧ c.toNat ≤ 90 then Char.ofNat (c.toNat + 32) else c

/-- The canonicalising loop of `canonicalMIMEHeaderKey`: upper case for the
first byte and for a byte after a dash, lower case elsewhere. -/
def canonicalLoop : Bool → List Char → List Char
  | _, [] => []
  | upper, c :: cs =>
    let c1 := if upper then upperByte c else lowerByte c
    c1 :: canonicalLoop (c1.toNat == 45) cs

/-- Go `canonicalMIMEHeaderKey` of net/textproto: a key holding a byte that
is not a token byte (a space included) is returned unchanged; any other key
goes through the canonicalising loop. -/
def canonicalMIMEHeaderKey (a : List Char) : List Char :=
  if a.all validHeaderFieldByte then canonicalLoop true a else a

/-- The quick check of Go `textproto.CanonicalMIMEHeaderKey` over the bytes
not yet visited: `s` is returned as it is at a byte that is not a token byte
and at the end; at the first letter in the wrong case `s` is handed to
`canonicalMIMEHeaderKey`. -/
def quickCheck (s : List Char) : Bool → List Char → List Char
  | _, [] => s
  | upper, c :: rest =>
    if !validHeaderFieldByte c then s
    else if upper && (97 ≤ c.toNat && c.toNat ≤ 122) then canonicalMIMEHeaderKey s
    else if !upper && (65 ≤ c.toNat && c.toNat ≤ 90) then canonicalMIMEHeaderKey s
    else quickCheck s (c.toNat == 45) rest

/-- Go `http.CanonicalHeaderKey`, which is `textproto.CanonicalMIMEHeaderKey`. -/
def CanonicalHeaderKey (s : String) : String :=
  String.mk (quickCheck s.data true s.data)

/-- ASCII lower-casing of a header name, the comparison key of
case-insensitive header-name equality. -/
def asciiLower (s : String) : String := String.mk (s.data.map lowerByte)

/-! ## net/http: header collections -/

/-- Go `http.Header`, `map[string][]string`. -/
abbrev Header := List (String × List String)

/-- Go `h[key]`: the stored slice, nil when the key is missing. -/
def Header.index : Header → String → List String
  | [], _ => []
  | (k, vs) :: rest, key => if k = key then vs else Header.index rest key

/-- Go `h[key] = vs`. -/
def Header.put : Header → String → List String → Header
  | [], key, vs => [(key, vs)]
  | (k, old) :: rest, key, vs =>
    if k = key then (key, vs) :: rest else (k, old) :: Header.put rest key vs

/-- Go `Header.Add`: `h[canonical key] = append(h[canonical key], value)`. -/
def Header.Add (h : Header) (key value : String) : Header :=
  h.put (CanonicalHeaderKey key) (h.index (CanonicalHeaderKey key) ++ [value])

/-- Go `Header.Set`: `h[canonical key] = []string{value}`. -/
def Header.Set (h : Header) (key value : String) : Header :=
  h.put (CanonicalHeaderKey key) [value]

/-- Go `Header.Del`: `delete(h, canonical key)`. -/
def Header.Del (h : Header) (key : String) : Header :=
  h.filter (fun entry => entry.1 != CanonicalHeaderKey key)

/-- Go's unexported `Header.get`: the first value of `h[key]`, the key taken
as it is, or the empty string. -/
def Header.first (h : Header) (key : String) : String :=
  match h.index key with
  | [] => ""
  | v :: _ => v

/-- Go `Header.Values`: the values under the canonical form of `key`. -/
def Header.Values (h : Header) (key : String) : List String :=
  h.index (CanonicalHeaderKey key)

/-- Go `Header.Get`: the first value under the canonical form of `key`, or
the empty string. -/
def Header.Get (h : Header) (key : String) : String :=
  match h.Values key with
  | [] => ""
  | v :: _ => v

/-! ## proxy.go: the header filter -/

/-- The keys of the map `hopByHopHeaders`. -/
def hopByHopHeaders : List String :=
  ["Connection", "Keep-Alive", "Proxy-Authenticate", "Proxy-Authorization",
   "Te", "Trailers", "Transfer-Encoding", "Upgrade"]

/-- Go `isHopByHop`: membership of the canonical key in `hopByHopHeaders`. -/
def isHopByHop (header : String) : Bool :=
  hopByHopHeaders.contains (CanonicalHeaderKey header)

/-- Go `copyHeaders`: for every entry of `src` whose name is not hop-by-hop,
`dst.Add(name, value)` for each of its values in order. Returns the final
`dst`. -/
def copyHeaders (src dst : Header) : Header :=
  src.foldl
    (fun dst entry =>
      if !isHopByHop entry.1 then
        entry.2.foldl (fun dst value => dst.Add entry.1 value) dst
      else dst)
    dst

/-- The header loop shared by the request path (`keep` is "not hop-by-hop")
and the response path of `ServeHTTP` (`keep` is constantly true); used to
state facts about both loops at once. -/
def addWhere (keep : String → Bool) (src dst : Header) : Header :=
  src.foldl
    (fun dst entry =>
      if keep entry.1 then
        entry.2.foldl (fun dst value => dst.Add entry.1 value) dst
      else dst)
    dst

/-- The values of all entries of `src` whose name passes `keep` and has the
canonical form `key`, concatenated in iteration order. -/
def valuesUnder (keep : String → Bool) (src : Header) (key : String) : List String :=
  (src.filter (fun entry => keep entry.1 && CanonicalHeaderKey entry.1 == key)).flatMap
    (fun entry => entry.2)

/-- The entries of `src` whose name has the same canonical form as `name`. -/
def sameName (src : Header) (name : String) : Header :=
  src.filter (fun entry => CanonicalHeaderKey entry.1 == CanonicalHeaderKey name)

/-! ## net/url, net/http: requests, responses, clients -/

/-- Go `url.Userinfo`. -/
structure Userinfo where
  username : String
  password : String
  passwordSet : Bool
  deriving DecidableEq, Repr

/-- Go `url.URL`. -/
structure URL where
  Scheme : String
  Opaque : String
  User : Option Userinfo
  Host : String
  Path : String
  RawPath : String
  OmitHost : Bool
  ForceQuery : Bool
  RawQuery : String
  Fragment : String
  RawFragment : String
  deriving DecidableEq, Repr

/-- Go `new(URL)`: every field zero. -/
def URL.empty : URL :=
  { Scheme := "", Opaque := "", User := none, Host := "", Path := "", RawPath := "",
    OmitHost := false, ForceQuery := false, RawQuery := "", Fragment := "",
    RawFragment := "" }

/-- A body stream (`io.ReadCloser`): the chunks successive `Read` calls
deliver, then `io.EOF` when `err` is `none`, or the read error `err`. -/
structure Body where
  chunks : List (List Char)
  err : Option String
  deriving DecidableEq, Repr

/-- All bytes of a body stream. -/
def Body.bytes (b : Body) : List Char := b.chunks.flatten

/-- Go `http.Request`, the fields the handler reads or writes. -/
structure Request where
  Method : String
  URL : URL
  RequestURI : String
  Host : String
  Header : Header
  Body : Body
  deriving DecidableEq, Repr

/-- Go `http.Response`, the fields the handler reads. -/
structure Response where
  StatusCode : Nat
  Header : Header
  Body : Body
  deriving DecidableEq, Repr

/-- Go `http.Client`; `Timeout` is a `time.Duration` in nanoseconds. -/
structure Client where
  Timeout : Int
  deriving DecidableEq, Repr

/-- The address of an `http.Client` (a Go `*http.Client`). -/
abbrev ClientPtr := Nat

/-- Go `http.DefaultClient`: the address of the one package-level client of
net/http, shared by everything in the process that uses the default client. -/
def DefaultClient : ClientPtr := 0

/-- The clients that exist in the process, by address. -/
structure World where
  clients : ClientPtr → Client

/-- Assignment `ptr.Timeout = timeout` through a client pointer. -/
def World.setTimeout (world : World) (ptr : ClientPtr) (timeout : Int) : World :=
  { clients := fun q => if q = ptr then { world.clients q with Timeout := timeout }
                        else world.clients q }

/-- What the handler takes from outside: `url.Parse`, `strconv.Quote` (the
`%q` verb) and the client's round trip `client.Do`, whose outcome may depend
on the client's settings (its timeout) and on the request. -/
structure Env where
  Parse : String → Except String URL
  Quote : String → String
  Do : Client → Request → Except String Response

/-- Go `validMethod`: a non-empty token. -/
def validMethod (method : String) : Bool :=
  !method.data.isEmpty && method.data.all validHeaderFieldByte

/-- Go `strings.LastIndex(s, c)` for a one-byte `c`: `-1` when missing. -/
def lastIndex (c : Char) (s : List Char) : Int :=
  s.enum.foldl (fun acc p => if p.2 = c then (p.1 : Int) else acc) (-1)

/-- Go `hasPort`: a colon after the last closing bracket. -/
def hasPort (s : String) : Bool :=
  decide (lastIndex ':' s.data > lastIndex ']' s.data)

/-- Go `removeEmptyPort`: strips a trailing colon from `host:`. -/
def removeEmptyPort (host : String) : String :=
  if hasPort host then
    (if host.data.getLast? = some ':' then String.mk host.data.dropLast else host)
  else host

/-- Go `http.NewRequest(method, url, body)`. -/
def NewRequest (env : Env) (method url : String) (body : Body) : Except String Request :=
  let method := if method = "" then "GET" else method
  if !validMethod method then
    .error ("net/http: invalid method " ++ env.Quote method)
  else
    match env.Parse url with
    | .error err => .error err
    | .ok u =>
      let u := { u with Host := removeEmptyPort u.Host }
      .ok { Method := method, URL := u, RequestURI := "", Host := u.Host,
            Header := [], Body := body }

/-! ## net/http: the response writer -/

/-- The value `v` of a Content-Length header for which Go
`strconv.ParseInt(cl, 10, 64)` succeeds with `v ≥ 0`: an optional sign, then
decimal digits only; the value is below `2^63`, and it is zero after a minus
sign. -/
def parseContentLength (cl : String) : Option Nat :=
  let signed : Bool × List Char :=
    match cl.data with
    | c :: rest =>
      if c.toNat = 43 then (false, rest)      -- '+'
      else if c.toNat = 45 then (true, rest)  -- '-'
      else (false, c :: rest)
    | [] => (false, [])
  let digits := signed.2
  if digits.isEmpty || !digits.all (fun c => 48 ≤ c.toNat && c.toNat ≤ 57) then none
  else
    let v : Nat := digits.foldl (fun n c => 10 * n + (c.toNat - 48)) 0
    if signed.1 then (if v = 0 then some 0 else none)
    else if v < 2 ^ 63 then some v else none

/-- The Content-Length a header map declares when the status is committed:
the first value under `Content-Length`, when it is a valid length. -/
def declaredLength (h : Header) : Option Nat :=
  if h.first "Content-Length" = "" then none
  else parseContentLength (h.first "Content-Length")

/-- The state of an `http.ResponseWriter` (the `response` of the net/http
server).

* `header` is the map `w.Header()` returns;
* `wroteHeader`, `status`, `sent`: whether a status line was committed, and
  the status and the snapshot of `header` committed with it;
* `contentLength`: the Content-Length declared at the commit, if any;
  `written`: the bytes handed to `Write` since, refused ones included;
* `body`: the body bytes the caller's connection has taken;
* `room`: how many more bytes that connection takes before it breaks
  (`none`: it stays open); `writeErr`: the error of a `Write` that it cuts.

`WriteHeader` models final status codes that allow a body, as `client.Do`
returns them with a body. -/
structure ResponseWriter where
  header : Header
  wroteHeader : Bool
  status : Nat
  sent : Header
  contentLength : Option Nat
  written : Nat
  body : List Char
  room : Option Nat
  writeErr : String
  deriving DecidableEq, Repr

/-- The writer the server hands to the handler for a new request. -/
def ResponseWriter.fresh (room : Option Nat) (writeErr : String) : ResponseWriter :=
  { header := [], wroteHeader := false, status := 0, sent := [], contentLength := none,
    written := 0, body := [], room := room, writeErr := writeErr }

/-- Go `w.WriteHeader(code)`: commits the status and the current headers, and
records the declared Content-Length (an invalid one is deleted from the
header map); a second call is logged as superfluous and changes nothing. -/
def ResponseWriter.WriteHeader (w : ResponseWriter) (code : Nat) : ResponseWriter :=
  if w.wroteHeader then w
  else
    let w := { w with wroteHeader := true, status := code, sent := w.header }
    if w.header.first "Content-Length" = "" then w
    else
      match parseContentLength (w.header.first "Content-Length") with
      | some v => { w with contentLength := some v }
      | none => { w with header := w.header.Del "Content-Length" }

/-- The part of `data` a connection with `room` bytes left takes. -/
def accepted (room : Option Nat) (data : List Char) : List Char :=
  match room with
  | none => data
  | some k => data.take k

/-- Whether a connection with `room` bytes left takes `n` more bytes. -/
def hasRoom (room : Option Nat) (n : Nat) : Bool :=
  match room with
  | none => true
  | some k => decide (n ≤ k)

/-- Whether `n` more bytes stay within the declared Content-Length `cl`
after `written` bytes. -/
def withinDeclared (cl : Option Nat) (written n : Nat) : Bool :=
  match cl with
  | none => true
  | some k => decide (written + n ≤ k)

/-- Go `http.ErrContentLength`. -/
def ErrContentLength : String := "http: wrote more than the declared Content-Length"

/-- Go `w.Write(data)`: commits status 200 first when no status was written;
an empty write does nothing more; a write that takes the bytes written past
the declared Content-Length is refused whole with `ErrContentLength`;
otherwise `data` is handed to the connection, and the error is `none` when
all of it was taken. -/
def ResponseWriter.Write (w : ResponseWriter) (data : List Char) :
    ResponseWriter × Option String :=
  let w := if w.wroteHeader then w else w.WriteHeader 200
  if data.isEmpty then (w, none)
  else
    let fits := withinDeclared w.contentLength w.written data.length
    let w := { w with written := w.written + data.length }
    if !fits then (w, some ErrContentLength)
    else
      let taken := accepted w.room data
      ({ w with body := w.body ++ taken, room := w.room.map (fun k => k - taken.length) },
       if taken.length < data.length then some w.writeErr else none)

/-- Go `http.StatusInternalServerError`. -/
def StatusInternalServerError : Nat := 500

/-- Go `http.Error(w, error, code)`: deletes `Content-Length` from the header
map, sets the two headers, `WriteHeader(code)`, then `fmt.Fprintln(w, error)`,
whose write error is dropped. -/
def Error (w : ResponseWriter) (error : String) (code : Nat) : ResponseWriter :=
  let w := { w with header := w.header.Del "Content-Length" }
  let w := { w with header := w.header.Set "Content-Type" "text/plain; charset=utf-8" }
  let w := { w with header := w.header.Set "X-Content-Type-Options" "nosniff" }
  let w := w.WriteHeader code
  (w.Write (error.data ++ ['\n'])).1

/-- The loop of Go `io.Copy(w, src)`: writes each chunk read; stops at the
first write error; ends with the error of the read that ends the stream. -/
def ioCopyLoop (w : ResponseWriter) (err : Option String) :
    List (List Char) → ResponseWriter × Option String
  | [] => (w, err)
  | chunk :: rest =>
    match w.Write chunk with
    | (w1, some e) => (w1, some e)
    | (w1, none) => ioCopyLoop w1 err rest

/-- Go `io.Copy(w, src)`; the byte count is not used by the handler. -/
def ioCopy (w : ResponseWriter) (src : Body) : ResponseWriter × Option String :=
  ioCopyLoop w src.err src.chunks

/-! ## proxy.go: the handler -/

/-- Go `type Handler struct`. -/
structure Handler where
  client : ClientPtr
  targetUrl : String
  deriving DecidableEq, Repr

/-- A functional option, Go `func(*Handler)`: it may assign to the handler's
fields and to what they point to. -/
abbrev Change := Handler → World → Handler × World

/-- Go `newHandler(targetUrl, changes...)`. -/
def newHandler (targetUrl : String) (changes : List Change) (world : World) :
    Handler × World :=
  let h : Handler := { client := DefaultClient, targetUrl := targetUrl }
  changes.foldl (fun state change => change state.1 state.2) (h, world)

/-- Go `withTimeout(timeout)`: the option `p.client.Timeout = timeout`. -/
def withTimeout (timeout : Int) : Change :=
  fun p world => (p, world.setTimeout p.client timeout)

/-- Go `http.Server`, the two fields `NewServer` sets. -/
structure Server where
  Handler : Handler
  Addr : String
  deriving DecidableEq, Repr

/-- Go `NewServer(targetURL, address, timeout)`. -/
def NewServer (targetURL address : String) (timeout : Int) (world : World) :
    Server × World :=
  let made := newHandler targetURL [withTimeout timeout] world
  ({ Handler := made.1, Addr := address }, made.2)

/-- The timeout that bounds the dispatches of handler `h` in `world`. -/
def timeoutInForce (world : World) (h : Handler) : Int :=
  (world.clients h.client).Timeout

/-- What one call of `ServeHTTP` did: the final state of the caller's
response writer, the requests handed to `p.client.Do` in order, and whether
the deferred `resp.Body.Close()` ran. -/
structure Served where
  w : ResponseWriter
  dispatched : List Request
  closed : Bool
  deriving DecidableEq, Repr

/-- Go `(*Handler).ServeHTTP(w, r)`. The `log.Println` line is left out. -/
def ServeHTTP (env : Env) (world : World) (p : Handler) (w : ResponseWriter)
    (r : Request) : Served :=
  -- Create a new request to the target URL.
  match NewRequest env r.Method (p.targetUrl ++ r.RequestURI) r.Body with
  | .error err =>
    { w := Error w err StatusInternalServerError, dispatched := [], closed := false }
  | .ok req =>
    -- Copy the request headers and remove hop-by-hop headers.
    let req := { req with Header := copyHeaders r.Header req.Header }
    -- Set the Host header to the target URL host.
    let req := { req with Host := req.URL.Host }
    -- Send the request.
    match env.Do (world.clients p.client) req with
    | .error err =>
      { w := Error w err StatusInternalServerError, dispatched := [req], closed := false }
    | .ok resp =>
      -- Copy the response headers and body.
      let header := resp.Header.foldl
        (fun h entry => entry.2.foldl (fun h value => h.Add entry.1 value) h) w.header
      let w := { w with header := header }
      let w := w.WriteHeader resp.StatusCode
      match ioCopy w resp.Body with
      | (w, some err) =>
        { w := Error w err StatusInternalServerError, dispatched := [req], closed := true }
      | (w, none) => { w := w, dispatched := [req], closed := true }


/-! ## net/url: parsing and printing

Strings are byte strings here, one `Char` for each byte. The text of an
error is built with `quote` (Go `strconv.Quote`). How a host that holds a
bracket (an IP-literal) is checked differs between Go releases, so that part
of `parseHost` is the parameter `ipLiteral`. -/

/-- Go `encoding` of net/url: the part of a URL a byte stands in. -/
inductive Encoding where
  | encodePath
  | encodePathSegment
  | encodeHost
  | encodeZone
  | encodeUserPassword
  | encodeQueryComponent
  | encodeFragment
  deriving DecidableEq, Repr

/-- ASCII letters and digits. -/
def isAlnum (c : Char) : Bool :=
  (97 ≤ c.toNat && c.toNat ≤ 122) || (65 ≤ c.toNat && c.toNat ≤ 90) ||
  (48 ≤ c.toNat && c.toNat ≤ 57)

/-- Go `shouldEscape(c, mode)`. -/
def shouldEscape (c : Char) (mode : Encoding) : Bool :=
  if isAlnum c then false
  -- host and zone allow ! $ & ' ( ) * + , ; = : [ ] < > "
  else if (mode = .encodeHost || mode = .encodeZone) &&
      [33, 36, 38, 39, 40, 41, 42, 43, 44, 59, 61, 58, 91, 93, 60, 62, 34].contains c.toNat then
    false
  -- unreserved marks - _ . ~
  else if [45, 95, 46, 126].contains c.toNat then false
  -- reserved $ & + , / : ; = ? @
  else if [36, 38, 43, 44, 47, 58, 59, 61, 63, 64].contains c.toNat then
    match mode with
    | .encodePath => c = '?'
    | .encodePathSegment => c = '/' || c = ';' || c = ',' || c = '?'
    | .encodeUserPassword => c = '@' || c = '/' || c = '?' || c = ':'
    | .encodeQueryComponent => true
    | .encodeFragment => false
    | _ => true
  -- a fragment also allows ! ( ) *
  else if mode = .encodeFragment && [33, 40, 41, 42].contains c.toNat then false
  else true

/-- Go `ishex`. -/
def ishex (c : Char) : Bool :=
  (48 ≤ c.toNat && c.toNat ≤ 57) || (97 ≤ c.toNat && c.toNat ≤ 102) ||
  (65 ≤ c.toNat && c.toNat ≤ 70)

/-- Go `unhex`. -/
def unhex (c : Char) : Nat :=
  if 48 ≤ c.toNat && c.toNat ≤ 57 then c.toNat - 48
  else if 97 ≤ c.toNat && c.toNat ≤ 102 then c.toNat - 97 + 10
  else if 65 ≤ c.toNat && c.toNat ≤ 70 then c.toNat - 65 + 10
  else 0

/-- Go `upperhex[n]`. -/
def upperhex (n : Nat) : Char :=
  if n % 16 < 10 then Char.ofNat (48 + n % 16) else Char.ofNat (55 + n % 16)

/-- The two errors of Go `unescape`: `EscapeError(e)` and
`InvalidHostError(e)`. -/
inductive UnescapeError where
  | escape (e : List Char)
  | host (e : List Char)
  deriving DecidableEq, Repr

/-- The `Error()` text of an `EscapeError` or `InvalidHostError`. -/
def UnescapeError.text (quote : String → String) : UnescapeError → String
  | .escape e => "invalid URL escape " ++ quote (String.mk e)
  | .host e => "invalid character " ++ quote (String.mk e) ++ " in host name"

/-- The first loop of Go `unescape`: the error of the first escape that is
cut short, not hexadecimal or not allowed in the mode, or of the first byte a
host may not hold. -/
def unescapeCheck (mode : Encoding) : List Char → Option UnescapeError
  | [] => none
  | c :: rest =>
    if c = '%' then
      match rest with
      | a :: b :: rest2 =>
        if !ishex a || !ishex b then some (.escape [c, a, b])
        else if mode = .encodeHost && unhex a < 8 && [a, b] ≠ ['2', '5'] then
          some (.escape [c, a, b])
        else if mode = .encodeZone && [a, b] ≠ ['2', '5'] && unhex a * 16 + unhex b ≠ 32 &&
            shouldEscape (Char.ofNat (unhex a * 16 + unhex b)) .encodeHost then
          some (.escape [c, a, b])
        else unescapeCheck mode rest2
      | _ => some (.escape (c :: rest))
    else if c = '+' then unescapeCheck mode rest
    else if (mode = .encodeHost || mode = .encodeZone) && c.toNat < 128 &&
        shouldEscape c .encodeHost then
      some (.host [c])
    else unescapeCheck mode rest

/-- The second loop of Go `unescape`: escapes decoded, and a plus sign read
as a space in a query component. It runs after the first loop found no
error, so an escape that is cut short is not met. -/
def unescapeDecode (mode : Encoding) : List Char → List Char
  | [] => []
  | c :: rest =>
    if c = '%' then
      match rest with
      | a :: b :: rest2 => Char.ofNat (unhex a * 16 + unhex b) :: unescapeDecode mode rest2
      | _ => c :: rest
    else if c = '+' && mode = .encodeQueryComponent then ' ' :: unescapeDecode mode rest
    else c :: unescapeDecode mode rest

/-- Go `unescape(s, mode)`. -/
def unescape (quote : String → String) (mode : Encoding) (s : List Char) :
    Except String (List Char) :=
  match unescapeCheck mode s with
  | some e => .error (e.text quote)
  | none => .ok (unescapeDecode mode s)

/-- Go `escape(s, mode)`. -/
def escape (mode : Encoding) (s : List Char) : List Char :=
  s.flatMap fun c =>
    if shouldEscape c mode then
      (if c = ' ' && mode = .encodeQueryComponent then ['+']
       else ['%', upperhex (c.toNat / 16), upperhex (c.toNat % 16)])
    else [c]

/-- Go `validEncoded(s, mode)`: sub-delims, colon, at sign, brackets and the
percent sign pass, any other byte passes when it needs no escaping. -/
def validEncoded (mode : Encoding) (s : List Char) : Bool :=
  s.all fun c =>
    -- ! $ & ' ( ) * + , ; = : @ [ ] %
    [33, 36, 38, 39, 40, 41, 42, 43, 44, 59, 61, 58, 64, 91, 93, 37].contains c.toNat ||
    !shouldEscape c mode

/-- Go `strings.Cut(s, sep)` for a one-byte separator: the text before the
first separator, the text after it, and whether there is one. -/
def cut (sep : Char) (s : List Char) : List Char × List Char × Bool :=
  (s.takeWhile (fun c => c != sep), (s.dropWhile (fun c => c != sep)).drop 1, s.contains sep)

/-- The text before and after the last `sep` of `s` (Go `strings.LastIndex`
and two slices), or `none` without a `sep`. -/
def cutLast (sep : Char) (s : List Char) : Option (List Char × List Char) :=
  if s.contains sep then
    some (((s.reverse.dropWhile (fun c => c != sep)).drop 1).reverse,
          (s.reverse.takeWhile (fun c => c != sep)).reverse)
  else none

/-- Go `stringContainsCTLByte`. -/
def stringContainsCTLByte (s : List Char) : Bool :=
  s.any fun c => c.toNat < 32 || c.toNat = 127

/-- The loop of Go `getScheme` from byte `pre.length` on: `pre` holds the
bytes already accepted. -/
def getSchemeFrom (rawURL pre : List Char) :
    List Char → Except String (List Char × List Char)
  | [] => .ok ([], rawURL)
  | c :: rest =>
    if (97 ≤ c.toNat && c.toNat ≤ 122) || (65 ≤ c.toNat && c.toNat ≤ 90) then
      getSchemeFrom rawURL (pre ++ [c]) rest
    else if (48 ≤ c.toNat && c.toNat ≤ 57) || c = '+' || c = '-' || c = '.' then
      (if pre.isEmpty then .ok ([], rawURL) else getSchemeFrom rawURL (pre ++ [c]) rest)
    else if c = ':' then
      (if pre.isEmpty then .error "missing protocol scheme" else .ok (pre, rest))
    else .ok ([], rawURL)

/-- Go `getScheme(rawURL)`: the scheme and what follows its colon, or no
scheme and the whole text. -/
def getScheme (rawURL : List Char) : Except String (List Char × List Char) :=
  getSchemeFrom rawURL [] rawURL

/-- Go `validUserinfo`: letters, digits and - . _ : ~ ! $ & ' ( ) * + , ; = % @ -/
def validUserinfo (s : List Char) : Bool :=
  s.all fun c =>
    isAlnum c ||
    [45, 46, 95, 58, 126, 33, 36, 38, 39, 40, 41, 42, 43, 44, 59, 61, 37, 64].contains c.toNat

/-- Go `parseHost(host)`; a host that holds a bracket is left to
`ipLiteral`. -/
def parseHost (quote : String → String) (ipLiteral : List Char → Except String (List Char))
    (host : List Char) : Except String (List Char) :=
  if host.contains '[' then ipLiteral host
  else
    match cutLast ':' host with
    | some (_, port) =>
      if port.all (fun c => 48 ≤ c.toNat && c.toNat ≤ 57) then unescape quote .encodeHost host
      else .error ("invalid port " ++ quote (String.mk (':' :: port)) ++ " after host")
    | none => unescape quote .encodeHost host

/-- Go `parseAuthority(authority)`: the user information before the last at
sign, and the host. -/
def parseAuthority (quote : String → String)
    (ipLiteral : List Char → Except String (List Char)) (authority : List Char) :
    Except String (Option Userinfo × List Char) :=
  match cutLast '@' authority with
  | none =>
    match parseHost quote ipLiteral authority with
    | .error e => .error e
    | .ok host => .ok (none, host)
  | some (userinfo, hostText) =>
    match parseHost quote ipLiteral hostText with
    | .error e => .error e
    | .ok host =>
      if !validUserinfo userinfo then .error "net/url: invalid userinfo"
      else if !userinfo.contains ':' then
        match unescape quote .encodeUserPassword userinfo with
        | .error e => .error e
        | .ok name =>
          .ok (some { username := String.mk name, password := "", passwordSet := false }, host)
      else
        match unescape quote .encodeUserPassword (cut ':' userinfo).1 with
        | .error e => .error e
        | .ok name =>
          match unescape quote .encodeUserPassword (cut ':' userinfo).2.1 with
          | .error e => .error e
          | .ok password =>
            .ok (some { username := String.mk name, password := String.mk password,
                        passwordSet := true }, host)

/-- Go `(*URL).setPath(p)`: `Path` is `p` unescaped, and `RawPath` is `p`
unless escaping `Path` gives `p` back. -/
def URL.setPath (quote : String → String) (u : URL) (p : List Char) : Except String URL :=
  match unescape quote .encodePath p with
  | .error e => .error e
  | .ok path =>
    .ok { u with Path := String.mk path,
                 RawPath := if p = escape .encodePath path then "" else String.mk p }

/-- Go `(*URL).setFragment(f)`. -/
def URL.setFragment (quote : String → String) (u : URL) (f : List Char) :
    Except String URL :=
  match unescape quote .encodeFragment f with
  | .error e => .error e
  | .ok frag =>
    .ok { u with Fragment := String.mk frag,
                 RawFragment := if f = escape .encodeFragment frag then "" else String.mk f }

/-- Go `parse(rawURL, false)`: a URL without its fragment. -/
def parse (quote : String → String) (ipLiteral : List Char → Except String (List Char))
    (rawURL : List Char) : Except String URL :=
  if stringContainsCTLByte rawURL then .error "net/url: invalid control character in URL"
  else if rawURL = ['*'] then .ok { URL.empty with Path := "*" }
  else
    match getScheme rawURL with
    | .error e => .error e
    | .ok (scheme, afterScheme) =>
      let forceQuery := afterScheme.getLast? = some '?' && afterScheme.count '?' = 1
      let rest := if forceQuery then afterScheme.dropLast else (cut '?' afterScheme).1
      let rawQuery := if forceQuery then [] else (cut '?' afterScheme).2.1
      let url : URL :=
        { URL.empty with Scheme := String.mk (scheme.map lowerByte), ForceQuery := forceQuery,
                         RawQuery := String.mk rawQuery }
      if rest.head? ≠ some '/' ∧ scheme ≠ [] then
        -- a rootless path after a scheme is opaque
        .ok { url with Opaque := String.mk rest }
      else if rest.head? ≠ some '/' ∧ (cut '/' rest).1.contains ':' then
        .error "first path segment in URL cannot contain colon"
      else if (scheme ≠ [] ∨ ¬ ['/', '/', '/'].isPrefixOf rest) ∧ ['/', '/'].isPrefixOf rest then
        match parseAuthority quote ipLiteral ((rest.drop 2).takeWhile (fun c => c != '/')) with
        | .error e => .error e
        | .ok (user, host) =>
          URL.setPath quote { url with User := user, Host := String.mk host }
            ((rest.drop 2).dropWhile (fun c => c != '/'))
      else
        URL.setPath quote { url with OmitHost := decide (scheme ≠ [] ∧ rest.head? = some '/') }
          rest

/-- Go `url.Parse(rawURL)`. -/
def Parse (quote : String → String) (ipLiteral : List Char → Except String (List Char))
    (rawURL : String) : Except String URL :=
  match parse quote ipLiteral (cut '#' rawURL.data).1 with
  | .error e => .error ("parse " ++ quote (String.mk (cut '#' rawURL.data).1) ++ ": " ++ e)
  | .ok url =>
    if (cut '#' rawURL.data).2.1 = [] then .ok url
    else
      match URL.setFragment quote url (cut '#' rawURL.data).2.1 with
      | .error e => .error ("parse " ++ quote rawURL ++ ": " ++ e)
      | .ok url => .ok url

/-- Go `(*URL).EscapedPath()`. -/
def URL.EscapedPath (u : URL) : List Char :=
  if u.RawPath ≠ "" ∧ validEncoded .encodePath u.RawPath.data ∧
      unescapeCheck .encodePath u.RawPath.data = none ∧
      unescapeDecode .encodePath u.RawPath.data = u.Path.data then
    u.RawPath.data
  else if u.Path = "*" then ['*']
  else escape .encodePath u.Path.data

/-- Go `(*URL).EscapedFragment()`. -/
def URL.EscapedFragment (u : URL) : List Char :=
  if u.RawFragment ≠ "" ∧ validEncoded .encodeFragment u.RawFragment.data ∧
      unescapeCheck .encodeFragment u.RawFragment.data = none ∧
      unescapeDecode .encodeFragment u.RawFragment.data = u.Fragment.data then
    u.RawFragment.data
  else escape .encodeFragment u.Fragment.data

/-- Go `(*Userinfo).String()`. -/
def Userinfo.text (ui : Userinfo) : List Char :=
  escape .encodeUserPassword ui.username.data ++
    (if ui.passwordSet then ':' :: escape .encodeUserPassword ui.password.data else [])

/-- Go `(*URL).String()`. -/
def URL.String (u : URL) : String :=
  let scheme : List Char := if u.Scheme ≠ "" then u.Scheme.data ++ [':'] else []
  let body : List Char :=
    if u.Opaque ≠ "" then scheme ++ u.Opaque.data
    else
      let authority : List Char :=
        if u.Scheme ≠ "" ∨ u.Host ≠ "" ∨ u.User.isSome then
          (if u.OmitHost ∧ u.Host = "" ∧ u.User.isNone then []
           else
             (if u.Host ≠ "" ∨ u.Path ≠ "" ∨ u.User.isSome then ['/', '/'] else []) ++
             (match u.User with
              | some ui => ui.text ++ ['@']
              | none => []) ++
             (if u.Host ≠ "" then escape .encodeHost u.Host.data else []))
        else []
      let path := u.EscapedPath
      let slash : List Char :=
        if path ≠ [] ∧ path.head? ≠ some '/' ∧ u.Host ≠ "" then ['/'] else []
      let dot : List Char :=
        if (scheme ++ authority ++ slash) = [] ∧ (cut '/' path).1.contains ':' then ['.', '/']
        else []
      scheme ++ authority ++ slash ++ dot ++ path
  let query : List Char :=
    if u.ForceQuery ∨ u.RawQuery ≠ "" then '?' :: u.RawQuery.data else []
  let fragment : List Char :=
    if u.Fragment ≠ "" then '#' :: u.EscapedFragment else []
  String.mk (body ++ query ++ fragment)

/-! ## Plain targets

The shape of a target such as `http://127.0.0.1:9000` or
`https://www.boredapi.com/api`, in the words of the theorems about the URL of
the outbound request. -/

/-- A scheme of lower-case letters, such as `http`. -/
def lowerScheme (s : List Char) : Bool :=
  !s.isEmpty && s.all fun c => 97 ≤ c.toNat && c.toNat ≤ 122

/-- A byte of a plain host: a letter, a digit, a dot, a hyphen, an underscore,
a tilde or a colon. -/
def hostByte (c : Char) : Bool :=
  isAlnum c || c = '.' || c = '-' || c = '_' || c = '~' || c = ':'

/-- A host, with or without a port, in plain bytes: not empty, and what
follows its last colon, if it has one, is decimal digits. -/
def plainHost (h : List Char) : Bool :=
  !h.isEmpty && h.all hostByte &&
    (match cutLast ':' h with
     | some (_, port) => port.all fun c => 48 ≤ c.toNat && c.toNat ≤ 57
     | none => true)

/-- The request `ServeHTTP` hands to `p.client.Do` when `http.NewRequest`
returned `req` for the inbound request `r`: `req` with the filtered headers of
`r` and the Host of its own URL. -/
def outbound (r req : Request) : Request :=
  let req := { req with Header := copyHeaders r.Header req.Header }
  { req with Host := req.URL.Host }

/-! ## Concrete inputs -/

/-- The header collection of `TestCopyHeaders`. -/
def fakeHeaders : Header :=
  [("Connection", ["test Connection value"]),
   ("Keep-Alive", ["test Keep-Alive value"]),
   ("Proxy-Authenticate", ["test Proxy-Authenticate value"]),
   ("Proxy-Authorization", ["test Proxy-Authorization value"]),
   ("TE", ["test TE value"]),
   ("Trailers", ["test Trailers value"]),
   ("Transfer-Encoding", ["test Transfer-Encoding value"]),
   ("Upgrade", ["test Upgrade value"]),
   ("X-Test-Header", ["test X-Test-Header value"]),
   ("X-Some-Other-Header", ["test X-Some-Other-Header value"])]

/-- A header collection with two keys that differ only in letter case. -/
def mixedCaseHeaders : Header :=
  [("x-test-header", ["a"]), ("X-Test-Header", ["b"])]

/-- The URL `url.Parse` returns for `http://127.0.0.1:9000/`. -/
def originURL : URL :=
  { URL.empty with Scheme := "http", Host := "127.0.0.1:9000", Path := "/" }

/-- Go `strconv.Quote` on printable ASCII text without quotes or backslashes. -/
def plainQuote (s : String) : String := "\"" ++ s ++ "\""

/-- The check of bracketed hosts used with the inputs below, none of which
holds a bracket: it refuses every such host. -/
def noIPLiteral (host : List Char) : Except String (List Char) :=
  .error ("invalid host " ++ plainQuote (String.mk host))

/-- An environment with Go's `url.Parse` and an origin whose round trip has
the given outcome. -/
def testEnv (outcome : Except String Response) : Env :=
  { Parse := Parse plainQuote noIPLiteral
    Quote := plainQuote
    Do := fun _ _ => outcome }

/-- The inbound request of `TestReverseProxyWithHeaders`, as the server hands
it to the handler. -/
def testRequest : Request :=
  { Method := "GET"
    URL := { URL.empty with Path := "/" }
    RequestURI := "/"
    Host := "test.example.com"
    Header := [("Connection", ["test value"]), ("X-Test-Header", ["test value"])]
    Body := { chunks := [], err := none } }

/-- A process in which no client has a timeout yet. -/
def initialWorld : World := { clients := fun _ => { Timeout := 0 } }

/-- The handler `newHandler("http://127.0.0.1:9000")`. -/
def testHandler : Handler := (newHandler "http://127.0.0.1:9000" [] initialWorld).1

/-- The response of the test origin. -/
def helloResponse : Response :=
  { StatusCode := 200
    Header := [("Content-Type", ["text/plain; charset=utf-8"]), ("Upgrade", ["h2c"])]
    Body := { chunks := ["Hello from ".data, "the test server!".data], err := none } }

/-- A response whose body stream breaks after the bytes `Hello`. -/
def brokenResponse : Response :=
  { StatusCode := 200
    Header := [("Content-Type", ["text/plain; charset=utf-8"])]
    Body := { chunks := ["Hello".data], err := some "unexpected EOF" } }

/-- The inbound request of the test with a method that is not a token. -/
def badMethodRequest : Request := { testRequest with Method := "BAD METHOD" }

/-- The error text of a round trip that ran into the client's timeout. -/
def timeoutText : String :=
  "Get \"http://127.0.0.1:9000/\": context deadline exceeded " ++
    "(Client.Timeout exceeded while awaiting headers)"

/-- A writer for a caller whose connection stays open. -/
def openWriter : ResponseWriter := ResponseWriter.fresh none "broken pipe"

/-- What `http.NewRequest` returns for the inbound request of the test and
the target `http://127.0.0.1:9000`. -/
def testNewRequest : Request :=
  { Method := "GET", URL := originURL, RequestURI := "", Host := "127.0.0.1:9000",
    Header := [], Body := testRequest.Body }

/-- The inbound request of the test with a request-target that makes the URL
string unparsable. -/
def badTargetRequest : Request := { testRequest with RequestURI := "/%zz" }

/-- The error of `http.NewRequest` for that request. -/
def badTargetText : String :=
  "parse \"http://127.0.0.1:9000/%zz\": invalid URL escape \"%zz\""

/-- The broken response with a relayed `Content-Length: 10`. -/
def brokenDeclaredResponse : Response :=
  { brokenResponse with
    Header := [("Content-Type", ["text/plain; charset=utf-8"]), ("Content-Length", ["10"])] }

/-- The inbound request the server builds from the request line
`GET x:@test.example.com/ HTTP/1.1` and the header `Host: test.example.com`:
the request-target has a scheme and no leading slash, so the server keeps it
as an opaque URL. -/
def otherHostRequest : Request :=
  { testRequest with
    URL := { URL.empty with Scheme := "x", Opaque := "@test.example.com/" }
    RequestURI := "x:@test.example.com/" }

theorem char_cases (P : Char → Prop)
    (hU : ∀ n, 65 ≤ n → n ≤ 90 → P (Char.ofNat n))
    (hL : ∀ n, 97 ≤ n → n ≤ 122 → P (Char.ofNat n))
    (hO : ∀ c : Char, ¬(65 ≤ c.toNat ∧ c.toNat ≤ 90) → ¬(97 ≤ c.toNat ∧ c.toNat ≤ 122) → P c)
    (c : Char) : P c := by
  by_cases h1 : 65 ≤ c.toNat ∧ c.toNat ≤ 90
  · rw [← Char.ofNat_toNat c]; exact hU _ h1.1 h1.2
  · by_cases h2 : 97 ≤ c.toNat ∧ c.toNat ≤ 122
    · rw [← Char.ofNat_toNat c]; exact hL _ h2.1 h2.2
    · exact hO c h1 h2

theorem upperByte_other (c : Char) (h : ¬(97 ≤ c.toNat ∧ c.toNat ≤ 122)) :
    upperByte c = c := by
  simp [upperByte, h]

theorem lowerByte_other (c : Char) (h : ¬(65 ≤ c.toNat ∧ c.toNat ≤ 90)) :
    lowerByte c = c := by
  simp [lowerByte, h]

theorem upperByte_idem (c : Char) : upperByte (upperByte c) = upperByte c := by
  refine char_cases (fun c => upperByte (upperByte c) = upperByte c) (by decide) (by decide) ?_ c
  intro c _ h2
  simp [upperByte_other c h2]

theorem lowerByte_idem (c : Char) : lowerByte (lowerByte c) = lowerByte c := by
  refine char_cases (fun c => lowerByte (lowerByte c) = lowerByte c) (by decide) (by decide) ?_ c
  intro c h1 _
  simp [lowerByte_other c h1]

theorem upperByte_lowerByte (c : Char) : upperByte (lowerByte c) = upperByte c := by
  refine char_cases (fun c => upperByte (lowerByte c) = upperByte c) (by decide) (by decide) ?_ c
  intro c h1 _
  simp [lowerByte_other c h1]

theorem valid_upperByte (c : Char) :
    validHeaderFieldByte (upperByte c) = validHeaderFieldByte c := by
  refine char_cases (fun c => validHeaderFieldByte (upperByte c) = validHeaderFieldByte c)
    (by decide) (by decide) ?_ c
  intro c _ h2
  simp [upperByte_other c h2]

theorem valid_lowerByte (c : Char) :
    validHeaderFieldByte (lowerByte c) = validHeaderFieldByte c := by
  refine char_cases (fun c => validHeaderFieldByte (lowerByte c) = validHeaderFieldByte c)
    (by decide) (by decide) ?_ c
  intro c h1 _
  simp [lowerByte_other c h1]

theorem canonicalLoop_idem (l : List Char) :
    ∀ upper, canonicalLoop upper (canonicalLoop upper l) = canonicalLoop upper l := by
  induction l with
  | nil => intro upper; rfl
  | cons c cs ih =>
    intro upper
    cases upper
    · simp only [canonicalLoop, Bool.false_eq_true, if_false, lowerByte_idem, ih]
    · simp only [canonicalLoop, if_true, upperByte_idem, ih]

theorem all_valid_canonicalLoop (l : List Char) :
    ∀ upper, (canonicalLoop upper l).all validHeaderFieldByte = l.all validHeaderFieldByte := by
  induction l with
  | nil => intro upper; rfl
  | cons c cs ih =>
    intro upper
    cases upper
    · simp only [canonicalLoop, Bool.false_eq_true, if_false, List.all_cons, valid_lowerByte, ih]
    · simp only [canonicalLoop, if_true, List.all_cons, valid_upperByte, ih]

theorem canonicalLoop_lower (l : List Char) :
    ∀ upper, canonicalLoop upper (l.map lowerByte) = canonicalLoop upper l := by
  induction l with
  | nil => intro upper; rfl
  | cons c cs ih =>
    intro upper
    cases upper
    · simp only [List.map_cons, canonicalLoop, Bool.false_eq_true, if_false, lowerByte_idem, ih]
    · simp only [List.map_cons, canonicalLoop, if_true, upperByte_lowerByte, ih]

theorem all_valid_lower (l : List Char) :
    (l.map lowerByte).all validHeaderFieldByte = l.all validHeaderFieldByte := by
  induction l with
  | nil => rfl
  | cons c cs ih => simp only [List.map_cons, List.all_cons, valid_lowerByte, ih]

theorem quickCheck_eq (s : List Char) :
    ∀ (rest pre : List Char) (upper : Bool), s = pre ++ rest →
      pre.all validHeaderFieldByte = true →
      (∀ tail, canonicalLoop true (pre ++ tail) = pre ++ canonicalLoop upper tail) →
      quickCheck s upper rest = canonicalMIMEHeaderKey s := by
  intro rest
  induction rest with
  | nil =>
    intro pre upper hs hv hinv
    have h1 := hinv []
    simp only [List.append_nil, canonicalLoop] at h1 hs
    subst hs
    simp only [quickCheck, canonicalMIMEHeaderKey, hv, if_true, h1]
  | cons c rest ih =>
    intro pre upper hs hv hinv
    by_cases hc : validHeaderFieldByte c = true
    · by_cases h1 : (upper && (97 ≤ c.toNat && c.toNat ≤ 122)) = true
      · simp only [quickCheck, hc, Bool.not_true, Bool.false_eq_true, if_false, h1, if_true]
      · by_cases h2 : (!upper && (65 ≤ c.toNat && c.toNat ≤ 90)) = true
        · simp only [quickCheck, hc, Bool.not_true, Bool.false_eq_true, if_false, h1, h2,
            if_true]
        · simp only [quickCheck, hc, Bool.not_true, Bool.false_eq_true, if_false, h1, h2]
          have hfix : (if upper = true then upperByte c else lowerByte c) = c := by
            cases upper
            · have : ¬(65 ≤ c.toNat ∧ c.toNat ≤ 90) := by simpa using h2
              simp [lowerByte_other c this]
            · have : ¬(97 ≤ c.toNat ∧ c.toNat ≤ 122) := by simpa using h1
              simp [upperByte_other c this]
          apply ih (pre ++ [c]) (c.toNat == 45)
          · rw [hs]; simp
          · simp [List.all_append, hv, hc]
          · intro tail
            have h3 := hinv (c :: tail)
            simp only [canonicalLoop, hfix] at h3
            simp only [List.append_assoc, List.singleton_append, h3]
    · have hc2 : validHeaderFieldByte c = false := by simpa using hc
      have hall : s.all validHeaderFieldByte = false := by
        rw [hs]; simp [List.all_append, hc2]
      simp only [quickCheck, hc2, Bool.not_false, if_true, canonicalMIMEHeaderKey, hall,
        Bool.false_eq_true, if_false]

/-- What `CanonicalHeaderKey` computes: a key made of token bytes goes through
the canonicalising loop, any other key is returned unchanged. -/
theorem CanonicalHeaderKey_eq (s : String) :
    CanonicalHeaderKey s =
      if s.data.all validHeaderFieldByte then String.mk (canonicalLoop true s.data) else s := by
  unfold CanonicalHeaderKey
  rw [quickCheck_eq s.data s.data [] true rfl rfl (fun _ => rfl)]
  unfold canonicalMIMEHeaderKey
  by_cases h : s.data.all validHeaderFieldByte = true
  · simp only [h, if_true]
  · have h2 : s.data.all validHeaderFieldByte = false := by simpa using h
    simp only [h2, Bool.false_eq_true, if_false]

/-- Canonicalising is idempotent. -/
theorem canonical_idem (s : String) :
    CanonicalHeaderKey (CanonicalHeaderKey s) = CanonicalHeaderKey s := by
  by_cases h : s.data.all validHeaderFieldByte = true
  · have h2 : (canonicalLoop true s.data).all validHeaderFieldByte = true := by
      rw [all_valid_canonicalLoop]; exact h
    rw [CanonicalHeaderKey_eq s]
    simp only [h, if_true]
    rw [CanonicalHeaderKey_eq]
    simp only [h2, if_true, canonicalLoop_idem]
  · have h2 : s.data.all validHeaderFieldByte = false := by simpa using h
    have h3 : CanonicalHeaderKey s = s := by
      rw [CanonicalHeaderKey_eq s]
      simp only [h2, Bool.false_eq_true, if_false]
    rw [h3, h3]

/-- The canonical form of a key is that of its lower-cased spelling. -/
theorem canonical_asciiLower (s : String) :
    CanonicalHeaderKey s =
      if (asciiLower s).data.all validHeaderFieldByte then
        String.mk (canonicalLoop true (asciiLower s).data)
      else s := by
  rw [CanonicalHeaderKey_eq]
  simp only [asciiLower, all_valid_lower, canonicalLoop_lower]

/-- Two spellings of one name that is made of token bytes have the same
canonical form. -/
theorem canonical_eq_of_lower_eq (a b : String) (h : asciiLower a = asciiLower b)
    (hb : b.data.all validHeaderFieldByte = true) :
    CanonicalHeaderKey a = CanonicalHeaderKey b := by
  have hb2 : (asciiLower b).data.all validHeaderFieldByte = true := by
    simp only [asciiLower, all_valid_lower]; exact hb
  rw [canonical_asciiLower a, canonical_asciiLower b, h]
  simp only [hb2, if_true]

/-- Every key of `hopByHopHeaders` is made of token bytes and is canonical. -/
theorem hopByHop_canonical (name : String) (h : name ∈ hopByHopHeaders) :
    name.data.all validHeaderFieldByte = true ∧ CanonicalHeaderKey name = name := by
  simp only [hopByHopHeaders, List.mem_cons, List.mem_singleton, List.not_mem_nil, or_false] at h
  rcases h with h | h | h | h | h | h | h | h <;> subst h <;> decide

/-- Any spelling of a hop-by-hop name is classified as hop-by-hop. -/
theorem isHopByHop_of_lower_eq (key name : String) (hname : name ∈ hopByHopHeaders)
    (hkey : asciiLower key = asciiLower name) :
    CanonicalHeaderKey key = name ∧ isHopByHop key = true := by
  have hc := hopByHop_canonical name hname
  have h1 : CanonicalHeaderKey key = name := by
    rw [canonical_eq_of_lower_eq key name hkey hc.1, hc.2]
  refine ⟨h1, ?_⟩
  simp only [isHopByHop, h1, List.contains, List.elem_eq_mem, decide_eq_true_eq]
  exact hname

/-! ## Header collections -/

theorem index_put (h : Header) (key k : String) (vs : List String) :
    (h.put key vs).index k = if key = k then vs else h.index k := by
  induction h with
  | nil => simp [Header.put, Header.index]
  | cons e rest ih =>
    obtain ⟨k0, old⟩ := e
    by_cases h0 : k0 = key
    · subst h0
      simp only [Header.put, if_true, Header.index]
      by_cases h1 : k0 = k
      · simp [h1]
      · simp [h1]
    · simp only [Header.put, h0, if_false, Header.index, ih]
      by_cases h1 : k0 = k
      · subst h1
        have : ¬ key = k0 := fun hh => h0 hh.symm
        simp [this]
      · simp [h1]

theorem mem_put (h : Header) (key : String) (vs : List String) (e : String × List String)
    (he : e ∈ h.put key vs) : e ∈ h ∨ e.1 = key := by
  induction h with
  | nil =>
    simp only [Header.put, List.mem_singleton] at he
    right; rw [he]
  | cons e0 rest ih =>
    obtain ⟨k0, old⟩ := e0
    by_cases h0 : k0 = key
    · simp only [Header.put, h0, if_true, List.mem_cons] at he
      rcases he with he | he
      · right; rw [he]
      · left; exact List.mem_cons_of_mem _ he
    · simp only [Header.put, h0, if_false, List.mem_cons] at he
      rcases he with he | he
      · left; rw [he]; exact List.mem_cons_self _ _
      · rcases ih he with h1 | h1
        · left; exact List.mem_cons_of_mem _ h1
        · right; exact h1

theorem index_Add (h : Header) (name value k : String) :
    (h.Add name value).index k =
      if CanonicalHeaderKey name = k then h.index k ++ [value] else h.index k := by
  unfold Header.Add
  rw [index_put]
  by_cases hk : CanonicalHeaderKey name = k
  · simp [hk]
  · simp [hk]

theorem index_foldl_Add (name : String) (vs : List String) :
    ∀ (h : Header) (k : String),
      (vs.foldl (fun dst value => dst.Add name value) h).index k =
        if CanonicalHeaderKey name = k then h.index k ++ vs else h.index k := by
  induction vs with
  | nil => intro h k; simp
  | cons v rest ih =>
    intro h k
    simp only [List.foldl_cons, ih, index_Add]
    by_cases hk : CanonicalHeaderKey name = k
    · simp [hk]
    · simp [hk]

theorem mem_foldl_Add (name : String) (vs : List String) :
    ∀ (h : Header) (e : String × List String),
      e ∈ vs.foldl (fun dst value => dst.Add name value) h →
        e ∈ h ∨ e.1 = CanonicalHeaderKey name := by
  induction vs with
  | nil => intro h e he; left; simpa using he
  | cons v rest ih =>
    intro h e he
    simp only [List.foldl_cons] at he
    rcases ih _ e he with h1 | h1
    · exact mem_put h _ _ e h1
    · right; exact h1

theorem valuesUnder_nil (keep : String → Bool) (k : String) : valuesUnder keep [] k = [] := rfl

theorem valuesUnder_cons (keep : String → Bool) (e : String × List String) (src : Header)
    (k : String) :
    valuesUnder keep (e :: src) k =
      (if keep e.1 = true ∧ CanonicalHeaderKey e.1 = k then e.2 else []) ++
        valuesUnder keep src k := by
  unfold valuesUnder
  by_cases h1 : keep e.1 = true
  · by_cases h2 : CanonicalHeaderKey e.1 = k
    · simp [List.filter_cons, h1, h2]
    · simp [List.filter_cons, h1, h2]
  · simp [List.filter_cons, h1]

/-- What the header loop leaves under a stored key: what was there, followed
by the values of the kept source entries with that canonical name. -/
theorem index_addWhere (keep : String → Bool) (src : Header) :
    ∀ (dst : Header) (k : String),
      (addWhere keep src dst).index k = dst.index k ++ valuesUnder keep src k := by
  induction src with
  | nil => intro dst k; simp [addWhere, valuesUnder_nil]
  | cons e rest ih =>
    intro dst k
    have ih2 := fun d => ih d k
    unfold addWhere at ih2 ⊢
    rw [List.foldl_cons, ih2, valuesUnder_cons]
    by_cases h1 : keep e.1 = true
    · by_cases h2 : CanonicalHeaderKey e.1 = k
      · simp [h1, h2, index_foldl_Add]
      · simp [h1, h2, index_foldl_Add]
    · simp [h1]

/-- Every stored key the header loop adds is the canonical form of a kept
source name. -/
theorem mem_addWhere (keep : String → Bool) (src : Header) :
    ∀ (dst : Header) (e : String × List String), e ∈ addWhere keep src dst →
      e ∈ dst ∨ ∃ s ∈ src, keep s.1 = true ∧ e.1 = CanonicalHeaderKey s.1 := by
  induction src with
  | nil => intro dst e he; left; simpa [addWhere] using he
  | cons s rest ih =>
    intro dst e he
    have ih2 := fun d => ih d e
    unfold addWhere at ih2 he
    rw [List.foldl_cons] at he
    rcases ih2 _ he with h1 | ⟨s1, hs1, hk, heq⟩
    · by_cases hkeep : keep s.1 = true
      · simp only [hkeep, if_true] at h1
        rcases mem_foldl_Add _ _ _ _ h1 with h2 | h2
        · left; exact h2
        · right; exact ⟨s, List.mem_cons_self _ _, hkeep, h2⟩
      · simp only [hkeep] at h1
        left; exact h1
    · right; exact ⟨s1, List.mem_cons_of_mem _ hs1, hk, heq⟩

theorem copyHeaders_eq_addWhere (src dst : Header) :
    copyHeaders src dst = addWhere (fun name => !isHopByHop name) src dst := rfl

/-- The values of a kept source entry stand together, in order, among the
values collected for its canonical name. -/
theorem valuesUnder_block (keep : String → Bool) (src : Header) (e : String × List String)
    (he : e ∈ src) (hk : keep e.1 = true) :
    e.2 <:+: valuesUnder keep src (CanonicalHeaderKey e.1) := by
  induction src with
  | nil => cases he
  | cons s rest ih =>
    rw [valuesUnder_cons]
    rcases List.mem_cons.1 he with h1 | h1
    · subst h1
      simp only [hk, true_and, if_true]
      exact ⟨[], valuesUnder keep rest (CanonicalHeaderKey e.1), by simp⟩
    · obtain ⟨a, b, hab⟩ := ih h1
      refine ⟨(if keep s.1 = true ∧ CanonicalHeaderKey s.1 = CanonicalHeaderKey e.1
                then s.2 else []) ++ a, b, ?_⟩
      rw [← hab]; simp [List.append_assoc]

/-- When no other source entry has the same canonical name, exactly the
values of the entry are collected. -/
theorem valuesUnder_unique (keep : String → Bool) (src : Header) (e : String × List String)
    (hk : keep e.1 = true) (hu : sameName src e.1 = [e]) :
    valuesUnder keep src (CanonicalHeaderKey e.1) = e.2 := by
  have h1 : src.filter (fun entry => keep entry.1 && CanonicalHeaderKey entry.1 ==
      CanonicalHeaderKey e.1) =
      (sameName src e.1).filter (fun entry => keep entry.1) := by
    unfold sameName
    rw [List.filter_filter]
  unfold valuesUnder
  rw [h1, hu]
  simp [List.filter_cons, hk]

/-- No value is collected under a hop-by-hop key by the request-path loop. -/
theorem valuesUnder_hop (src : Header) (k : String) (hk : k ∈ hopByHopHeaders) :
    valuesUnder (fun name => !isHopByHop name) src k = [] := by
  induction src with
  | nil => rfl
  | cons s rest ih =>
    rw [valuesUnder_cons, ih]
    by_cases h2 : CanonicalHeaderKey s.1 = k
    · have : isHopByHop s.1 = true := by
        simp only [isHopByHop, h2, List.contains, List.elem_eq_mem, decide_eq_true_eq]
        exact hk
      simp [this]
    · simp [h2]

/-! ## The header filter -/

/-- Under any spelling of a hop-by-hop name the filtered collection holds no
value, whatever it was started from empty with. -/
theorem copyHeaders_hop_values (src : Header) (name key : String)
    (hname : name ∈ hopByHopHeaders) (hkey : asciiLower key = asciiLower name) :
    (copyHeaders src []).Values key = [] := by
  have h1 := (isHopByHop_of_lower_eq key name hname hkey).1
  unfold Header.Values
  rw [copyHeaders_eq_addWhere, index_addWhere, h1, valuesUnder_hop src name hname]
  rfl

/-- The values the filtered collection holds under a name: those of all
end-to-end source entries with the same canonical name, in iteration order. -/
theorem copyHeaders_values_eq (src : Header) (name : String) :
    (copyHeaders src []).Values name =
      valuesUnder (fun name => !isHopByHop name) src (CanonicalHeaderKey name) := by
  unfold Header.Values
  rw [copyHeaders_eq_addWhere, index_addWhere]
  rfl

/-- The assertions of `TestCopyHeaders` hold in the model. -/
theorem TestCopyHeaders :
    (copyHeaders fakeHeaders []).Get "X-Test-Header" = "test X-Test-Header value" ∧
      (copyHeaders fakeHeaders []).Get "X-Some-Other-Header" =
        "test X-Some-Other-Header value" ∧
      (copyHeaders fakeHeaders []).Get "Connection" = "" ∧
      (copyHeaders fakeHeaders []).Get "Keep-Alive" = "" ∧
      (copyHeaders fakeHeaders []).Get "Proxy-Authenticate" = "" ∧
      (copyHeaders fakeHeaders []).Get "Proxy-Authorization" = "" ∧
      (copyHeaders fakeHeaders []).Get "TE" = "" ∧
      (copyHeaders fakeHeaders []).Get "Trailers" = "" ∧
      (copyHeaders fakeHeaders []).Get "Transfer-Encoding" = "" ∧
      (copyHeaders fakeHeaders []).Get "Upgrade" = "" := by
  decide

/-- C1: after `copyHeaders(src, dst)` with `dst` empty, `dst` holds no value
under any of the eight hop-by-hop names (Connection, Keep-Alive,
Proxy-Authenticate, Proxy-Authorization, TE, Trailers, Transfer-Encoding,
Upgrade) in any letter case: `Values` and `Get` of every spelling `key` of such
a name are empty, and no stored key is such a spelling. -/
theorem copyHeaders_drops_hop_by_hop (src : Header) (name key : String)
    (hname : name ∈ hopByHopHeaders) (hkey : asciiLower key = asciiLower name) :
    (copyHeaders src []).Values key = [] ∧ (copyHeaders src []).Get key = "" ∧
      ∀ e ∈ copyHeaders src [], e.1 ≠ key := by
  have hv := copyHeaders_hop_values src name key hname hkey
  refine ⟨hv, ?_, ?_⟩
  · unfold Header.Get; rw [hv]
  · intro e he heq
    rw [copyHeaders_eq_addWhere] at he
    rcases mem_addWhere _ src [] e he with h1 | ⟨s, _, hkeep, hcanon⟩
    · cases h1
    · have hkey2 := isHopByHop_of_lower_eq key name hname hkey
      have h3 : CanonicalHeaderKey s.1 = name := by
        rw [← hkey2.1, ← heq, hcanon, canonical_idem]
      have h4 : isHopByHop s.1 = true := by
        simp only [isHopByHop, h3, List.contains, List.elem_eq_mem, decide_eq_true_eq]
        exact hname
      simp [h4] at hkeep

/-- C1, on the collection of `TestCopyHeaders` and the spelling `TE`. -/
theorem copyHeaders_drops_hop_by_hop_witness :
    "Te" ∈ hopByHopHeaders ∧ asciiLower "TE" = asciiLower "Te" ∧
      ((copyHeaders fakeHeaders []).Values "TE" = [] ∧
        (copyHeaders fakeHeaders []).Get "TE" = "" ∧
        ∀ e ∈ copyHeaders fakeHeaders [], e.1 ≠ "TE") :=
  ⟨by decide, by decide,
    copyHeaders_drops_hop_by_hop fakeHeaders "Te" "TE" (by decide) (by decide)⟩

/-- C2 as stated fails: with the two keys `x-test-header` (value `a`) and
`X-Test-Header` (value `b`) in the source, the destination holds both values
under that name, in iteration order, not exactly the values of one key. -/
theorem copyHeaders_merges_mixed_case :
    (mixedCaseHeaders.map Prod.fst).Nodup ∧
      ("x-test-header", ["a"]) ∈ mixedCaseHeaders ∧
      isHopByHop "x-test-header" = false ∧
      (copyHeaders mixedCaseHeaders []).Values "x-test-header" = ["a", "b"] ∧
      (copyHeaders mixedCaseHeaders.reverse []).Values "x-test-header" = ["b", "a"] ∧
      (copyHeaders mixedCaseHeaders []).Values "x-test-header" ≠ ["a"] ∧
      (copyHeaders mixedCaseHeaders.reverse []).Values "x-test-header" ≠ ["a"] := by
  decide

/-- C2, amended: for an entry of the source whose name is not hop-by-hop, the
destination (started empty) holds under that name the values of all source
keys with the same canonical form, key by key in iteration order; the values
of the entry stand together in their original order among them; and when no
other source key has the same canonical form they are exactly the values of
the entry. -/
theorem copyHeaders_keeps_values (src : Header) (e : String × List String) (he : e ∈ src)
    (hhop : isHopByHop e.1 = false) :
    (copyHeaders src []).Values e.1 =
        valuesUnder (fun name => !isHopByHop name) src (CanonicalHeaderKey e.1) ∧
      e.2 <:+: (copyHeaders src []).Values e.1 ∧
      (sameName src e.1 = [e] → (copyHeaders src []).Values e.1 = e.2) := by
  have hk : (fun name => !isHopByHop name) e.1 = true := by simp [hhop]
  have h1 := copyHeaders_values_eq src e.1
  refine ⟨h1, ?_, ?_⟩
  · rw [h1]
    exact valuesUnder_block _ src e he hk
  · intro hu
    rw [h1]
    exact valuesUnder_unique _ src e hk hu

/-- C2, amended, on the collection of `TestCopyHeaders`. -/
theorem copyHeaders_keeps_values_witness :
    ("X-Test-Header", ["test X-Test-Header value"]) ∈ fakeHeaders ∧
      isHopByHop "X-Test-Header" = false ∧
      sameName fakeHeaders "X-Test-Header" = [("X-Test-Header", ["test X-Test-Header value"])] ∧
      (copyHeaders fakeHeaders []).Values "X-Test-Header" = ["test X-Test-Header value"] :=
  ⟨by decide, by decide, by decide,
    (copyHeaders_keeps_values fakeHeaders ("X-Test-Header", ["test X-Test-Header value"])
      (by decide) (by decide)).2.2 (by decide)⟩

/-! ## The response writer -/

theorem accepted_of_hasRoom (room : Option Nat) (data : List Char)
    (h : hasRoom room data.length = true) : accepted room data = data := by
  cases room with
  | none => rfl
  | some k =>
    simp only [hasRoom, decide_eq_true_eq] at h
    simp only [accepted]
    exact List.take_of_length_le h

theorem accepted_nil (room : Option Nat) : accepted room [] = [] := by
  cases room <;> simp [accepted]

theorem Write_committed (w : ResponseWriter) (data : List Char) (hw : w.wroteHeader = true) :
    w.Write data =
      if data.isEmpty = true then (w, none)
      else if withinDeclared w.contentLength w.written data.length = true then
        ({ w with written := w.written + data.length,
                  body := w.body ++ accepted w.room data,
                  room := w.room.map (fun k => k - (accepted w.room data).length) },
         if (accepted w.room data).length < data.length then some w.writeErr else none)
      else ({ w with written := w.written + data.length }, some ErrContentLength) := by
  unfold ResponseWriter.Write
  simp only [hw, if_true]
  by_cases h1 : data.isEmpty = true
  · simp only [h1, if_true]
  · simp only [h1, if_false]
    by_cases h2 : withinDeclared w.contentLength w.written data.length = true
    · simp only [h2, Bool.not_true, Bool.false_eq_true, if_false, if_true]
    · have h3 : withinDeclared w.contentLength w.written data.length = false := by
        simpa using h2
      simp only [h3, Bool.not_false, if_true, Bool.false_eq_true, if_false]

theorem Write_ok (w : ResponseWriter) (data : List Char) (hw : w.wroteHeader = true)
    (hfit : withinDeclared w.contentLength w.written data.length = true)
    (hroom : hasRoom w.room data.length = true) :
    w.Write data =
      ({ w with written := w.written + data.length, body := w.body ++ data,
                room := w.room.map (fun k => k - data.length) }, none) := by
  rw [Write_committed w data hw]
  by_cases h1 : data.isEmpty = true
  · have h2 : data = [] := List.isEmpty_iff.1 h1
    subst h2
    obtain ⟨header, wrote, status, sent, cl, written, body, room, writeErr⟩ := w
    cases room <;> simp
  · simp only [h1, Bool.false_eq_true, if_false, hfit, if_true,
      accepted_of_hasRoom w.room _ hroom, lt_self_iff_false]

/-- When the stream holds no more bytes than the declared Content-Length
leaves and than the caller's connection takes, `io.Copy` hands all of them
over and returns the error that ended the stream. -/
theorem ioCopyLoop_ok (err : Option String) (chunks : List (List Char)) :
    ∀ w : ResponseWriter, w.wroteHeader = true →
      withinDeclared w.contentLength w.written chunks.flatten.length = true →
      hasRoom w.room chunks.flatten.length = true →
      ioCopyLoop w err chunks =
        ({ w with written := w.written + chunks.flatten.length,
                  body := w.body ++ chunks.flatten,
                  room := w.room.map (fun k => k - chunks.flatten.length) }, err) := by
  induction chunks with
  | nil =>
    intro w _ _ _
    obtain ⟨header, wrote, status, sent, cl, written, body, room, writeErr⟩ := w
    cases room <;> simp [ioCopyLoop]
  | cons chunk rest ih =>
    intro w hw hfit hroom
    obtain ⟨header, wrote, status, sent, cl, written, body, room, writeErr⟩ := w
    simp only [List.flatten_cons, List.length_append] at hw hfit hroom ⊢
    have hfit1 : withinDeclared cl written chunk.length = true := by
      cases cl with
      | none => rfl
      | some k =>
        simp only [withinDeclared, decide_eq_true_eq] at hfit ⊢
        omega
    have hroom1 : hasRoom room chunk.length = true := by
      cases room with
      | none => rfl
      | some k =>
        simp only [hasRoom, decide_eq_true_eq] at hroom ⊢
        omega
    have hfit2 : withinDeclared cl (written + chunk.length) rest.flatten.length = true := by
      cases cl with
      | none => rfl
      | some k =>
        simp only [withinDeclared, decide_eq_true_eq] at hfit ⊢
        omega
    have hroom2 : hasRoom (room.map (fun k => k - chunk.length)) rest.flatten.length = true := by
      cases room with
      | none => rfl
      | some k =>
        simp only [hasRoom, Option.map_some', decide_eq_true_eq] at hroom ⊢
        omega
    simp only [ioCopyLoop]
    rw [Write_ok _ chunk hw hfit1 hroom1]
    simp only
    rw [ih _ hw hfit2 hroom2]
    cases room with
    | none => simp [Nat.add_assoc]
    | some k => simp [Nat.add_assoc, Nat.sub_sub]

/-- When `io.Copy` returns no error, the stream ended with `io.EOF` and held
no more bytes than the declared Content-Length left and than the caller's
connection took. -/
theorem ioCopyLoop_none (err : Option String) (chunks : List (List Char)) :
    ∀ w : ResponseWriter, w.wroteHeader = true →
      withinDeclared w.contentLength w.written 0 = true →
      (ioCopyLoop w err chunks).2 = none →
      err = none ∧ withinDeclared w.contentLength w.written chunks.flatten.length = true ∧
        hasRoom w.room chunks.flatten.length = true := by
  induction chunks with
  | nil =>
    intro w _ hinv h
    simp only [ioCopyLoop] at h
    refine ⟨h, by simpa using hinv, ?_⟩
    cases hr : w.room <;> simp [hasRoom]
  | cons chunk rest ih =>
    intro w hw hinv h
    simp only [ioCopyLoop] at h
    rw [Write_committed w chunk hw] at h
    by_cases h1 : chunk.isEmpty = true
    · have h2 : chunk = [] := List.isEmpty_iff.1 h1
      subst h2
      simp only [List.isEmpty_nil, if_true] at h
      simpa using ih w hw hinv h
    · simp only [h1, if_false] at h
      by_cases hfit : withinDeclared w.contentLength w.written chunk.length = true
      · simp only [hfit, if_true] at h
        by_cases hcut : (accepted w.room chunk).length < chunk.length
        · simp only [hcut, if_true] at h
          cases h
        · simp only [hcut, if_false] at h
          have hfit0 : withinDeclared w.contentLength (w.written + chunk.length) 0 = true := by
            cases hcl : w.contentLength with
            | none => rfl
            | some k =>
              rw [hcl] at hfit
              simp only [withinDeclared, decide_eq_true_eq] at hfit ⊢
              omega
          obtain ⟨he, hf, hr⟩ := ih
            { w with written := w.written + chunk.length,
                     body := w.body ++ accepted w.room chunk,
                     room := w.room.map (fun k => k - (accepted w.room chunk).length) }
            hw hfit0 h
          simp only at hf hr
          refine ⟨he, ?_, ?_⟩
          · cases hcl : w.contentLength with
            | none => rfl
            | some k =>
              rw [hcl] at hf
              simp only [withinDeclared, decide_eq_true_eq, List.flatten_cons,
                List.length_append] at hf ⊢
              omega
          · cases hrm : w.room with
            | none => rfl
            | some k =>
              rw [hrm] at hr hcut
              simp only [accepted, List.length_take, not_lt] at hcut
              simp only [hasRoom, accepted, Option.map_some', decide_eq_true_eq,
                List.flatten_cons, List.length_append, List.length_take] at hr ⊢
              omega
      · simp only [hfit, if_false] at h
        cases h

/-- What `http.Error` does to a fresh writer: it commits `code` and its two
headers, and hands the text and a newline to the caller's connection. -/
theorem Error_fresh (room : Option Nat) (writeErr msg : String) (code : Nat) :
    Error (ResponseWriter.fresh room writeErr) msg code =
      { header := [("Content-Type", ["text/plain; charset=utf-8"]),
                   ("X-Content-Type-Options", ["nosniff"])],
        wroteHeader := true,
        status := code,
        sent := [("Content-Type", ["text/plain; charset=utf-8"]),
                 ("X-Content-Type-Options", ["nosniff"])],
        contentLength := none,
        written := (msg.data ++ ['\n']).length,
        body := accepted room (msg.data ++ ['\n']),
        room := room.map (fun k => k - (accepted room (msg.data ++ ['\n'])).length),
        writeErr := writeErr } := by
  have h1 : Header.Set (Header.Del [] "Content-Length") "Content-Type"
      "text/plain; charset=utf-8" = [("Content-Type", ["text/plain; charset=utf-8"])] := by
    decide
  have h2 : Header.Set [("Content-Type", ["text/plain; charset=utf-8"])]
      "X-Content-Type-Options" "nosniff" =
      [("Content-Type", ["text/plain; charset=utf-8"]),
       ("X-Content-Type-Options", ["nosniff"])] := by
    decide
  have h3 : Header.first [("Content-Type", ["text/plain; charset=utf-8"]),
      ("X-Content-Type-Options", ["nosniff"])] "Content-Length" = "" := by
    decide
  simp [Error, ResponseWriter.fresh, ResponseWriter.WriteHeader, ResponseWriter.Write,
    h1, h2, h3, withinDeclared]

/-! ## The handler, case by case -/

theorem NewRequest_ok (env : Env) (method url : String) (body : Body) (req : Request)
    (h : NewRequest env method url body = .ok req) :
    req.Method = (if method = "" then "GET" else method) ∧
      (∃ u, env.Parse url = .ok u ∧ req.URL = { u with Host := removeEmptyPort u.Host }) ∧
      req.Body = body ∧ req.Header = [] ∧ req.Host = req.URL.Host := by
  unfold NewRequest at h
  simp only at h
  generalize (if method = "" then "GET" else method) = m at h ⊢
  by_cases hv : validMethod m = true
  · cases hp : env.Parse url with
    | error e => simp [hv, hp] at h
    | ok u =>
      simp only [hv, hp, Bool.not_true, Bool.false_eq_true, if_false] at h
      injection h with h
      subst h
      exact ⟨rfl, ⟨u, rfl, rfl⟩, rfl, rfl, rfl⟩
  · simp [hv] at h

theorem NewRequest_error (env : Env) (method url : String) (body : Body) (err : String)
    (h : NewRequest env method url body = .error err) :
    (validMethod (if method = "" then "GET" else method) = false ∧
        err = "net/http: invalid method " ++ env.Quote (if method = "" then "GET" else method)) ∨
      env.Parse url = .error err := by
  unfold NewRequest at h
  simp only at h
  generalize (if method = "" then "GET" else method) = m at h ⊢
  by_cases hv : validMethod m = true
  · cases hp : env.Parse url with
    | error e =>
      simp only [hv, hp, Bool.not_true, Bool.false_eq_true, if_false] at h
      injection h with h
      right; rw [h]
    | ok u => simp [hv, hp] at h
  · have hv2 : validMethod m = false := by simpa using hv
    simp only [hv2, Bool.not_false, if_true] at h
    injection h with h
    left; exact ⟨hv2, h.symm⟩

theorem ServeHTTP_construction_error (env : Env) (world : World) (p : Handler)
    (w : ResponseWriter) (r : Request) (err : String)
    (h : NewRequest env r.Method (p.targetUrl ++ r.RequestURI) r.Body = .error err) :
    ServeHTTP env world p w r =
      { w := Error w err StatusInternalServerError, dispatched := [], closed := false } := by
  unfold ServeHTTP
  rw [h]

theorem ServeHTTP_dispatch_error (env : Env) (world : World) (p : Handler)
    (w : ResponseWriter) (r req : Request) (err : String)
    (h : NewRequest env r.Method (p.targetUrl ++ r.RequestURI) r.Body = .ok req)
    (hdo : env.Do (world.clients p.client) (outbound r req) = .error err) :
    ServeHTTP env world p w r =
      { w := Error w err StatusInternalServerError, dispatched := [outbound r req],
        closed := false } := by
  unfold ServeHTTP
  rw [h]
  unfold outbound at hdo
  simp only at hdo ⊢
  rw [hdo]
  rfl

theorem ServeHTTP_relay (env : Env) (world : World) (p : Handler)
    (w : ResponseWriter) (r req : Request) (resp : Response)
    (h : NewRequest env r.Method (p.targetUrl ++ r.RequestURI) r.Body = .ok req)
    (hdo : env.Do (world.clients p.client) (outbound r req) = .ok resp) :
    ServeHTTP env world p w r =
      match ioCopy (ResponseWriter.WriteHeader
          { w with header := addWhere (fun _ => true) resp.Header w.header }
          resp.StatusCode) resp.Body with
      | (w2, some err) =>
        { w := Error w2 err StatusInternalServerError, dispatched := [outbound r req],
          closed := true }
      | (w2, none) => { w := w2, dispatched := [outbound r req], closed := true } := by
  unfold ServeHTTP
  rw [h]
  unfold outbound at hdo
  simp only at hdo ⊢
  rw [hdo]
  rfl

theorem outbound_fields (r req : Request) :
    (outbound r req).Method = req.Method ∧ (outbound r req).URL = req.URL ∧
      (outbound r req).Host = req.URL.Host ∧ (outbound r req).Body = req.Body ∧
      (outbound r req).Header = copyHeaders r.Header req.Header :=
  ⟨rfl, rfl, rfl, rfl, rfl⟩

/-- Once `http.NewRequest` succeeded, exactly one request is handed to the
client, whatever happens afterwards. -/
theorem ServeHTTP_dispatched (env : Env) (world : World) (p : Handler)
    (w : ResponseWriter) (r req : Request)
    (h : NewRequest env r.Method (p.targetUrl ++ r.RequestURI) r.Body = .ok req) :
    (ServeHTTP env world p w r).dispatched = [outbound r req] := by
  cases hdo : env.Do (world.clients p.client) (outbound r req) with
  | error err => rw [ServeHTTP_dispatch_error env world p w r req err h hdo]
  | ok resp =>
    rw [ServeHTTP_relay env world p w r req resp h hdo]
    split <;> rfl

/-- A dispatched request comes from a successful `http.NewRequest`. -/
theorem dispatched_inv (env : Env) (world : World) (p : Handler)
    (w : ResponseWriter) (r req : Request)
    (h : req ∈ (ServeHTTP env world p w r).dispatched) :
    ∃ req0, NewRequest env r.Method (p.targetUrl ++ r.RequestURI) r.Body = .ok req0 ∧
      req = outbound r req0 := by
  cases hn : NewRequest env r.Method (p.targetUrl ++ r.RequestURI) r.Body with
  | error err =>
    rw [ServeHTTP_construction_error env world p w r err hn] at h
    cases h
  | ok req0 =>
    rw [ServeHTTP_dispatched env world p w r req0 hn] at h
    exact ⟨req0, rfl, List.mem_singleton.1 h⟩

/-- The writer after the response headers were added and the status was
committed, for a fresh writer: the header map may have lost an invalid
Content-Length, everything else is fixed. -/
theorem relay_committed (room : Option Nat) (writeErr : String) (resp : Response) :
    ∃ header,
      ResponseWriter.WriteHeader
          { ResponseWriter.fresh room writeErr with
            header := addWhere (fun _ => true) resp.Header
              (ResponseWriter.fresh room writeErr).header }
          resp.StatusCode =
        { header := header, wroteHeader := true, status := resp.StatusCode,
          sent := addWhere (fun _ => true) resp.Header [],
          contentLength := declaredLength (addWhere (fun _ => true) resp.Header []),
          written := 0, body := [], room := room, writeErr := writeErr } := by
  simp only [ResponseWriter.WriteHeader, ResponseWriter.fresh, declaredLength,
    Bool.false_eq_true, if_false]
  by_cases h1 : Header.first (addWhere (fun _ => true) resp.Header []) "Content-Length" = ""
  · simp only [h1, if_true]
    exact ⟨_, rfl⟩
  · simp only [h1, if_false]
    cases h2 : parseContentLength
        (Header.first (addWhere (fun _ => true) resp.Header []) "Content-Length") with
    | none => exact ⟨_, rfl⟩
    | some v => exact ⟨_, rfl⟩

/-- The outcome of a call of `ServeHTTP` whose dispatch and body copy
succeeded, for a fresh writer. -/
theorem ServeHTTP_relay_ok (env : Env) (world : World) (p : Handler)
    (r req : Request) (resp : Response) (room : Option Nat) (writeErr : String)
    (h : NewRequest env r.Method (p.targetUrl ++ r.RequestURI) r.Body = .ok req)
    (hdo : env.Do (world.clients p.client) (outbound r req) = .ok resp)
    (heof : resp.Body.err = none)
    (hroom : hasRoom room resp.Body.bytes.length = true)
    (hlen : withinDeclared (declaredLength (addWhere (fun _ => true) resp.Header [])) 0
      resp.Body.bytes.length = true) :
    ∃ header,
      (ServeHTTP env world p (ResponseWriter.fresh room writeErr) r).w =
        { header := header, wroteHeader := true, status := resp.StatusCode,
          sent := addWhere (fun _ => true) resp.Header [],
          contentLength := declaredLength (addWhere (fun _ => true) resp.Header []),
          written := resp.Body.bytes.length, body := resp.Body.bytes,
          room := room.map (fun k => k - resp.Body.bytes.length), writeErr := writeErr } := by
  obtain ⟨header, hw⟩ := relay_committed room writeErr resp
  refine ⟨header, ?_⟩
  rw [ServeHTTP_relay env world p _ r req resp h hdo, hw]
  unfold ioCopy
  rw [ioCopyLoop_ok _ _ _ rfl hlen hroom, heof]
  simp [Body.bytes]

/-- In the model `io.Copy`, started after the commit, returns no error
exactly when the stream ends with `io.EOF`, the caller's connection has room
for all its bytes, and they stay within the declared Content-Length. -/
theorem ioCopy_ok_iff (w : ResponseWriter) (src : Body) (hw : w.wroteHeader = true)
    (hinv : withinDeclared w.contentLength w.written 0 = true) :
    (ioCopy w src).2 = none ↔
      (src.err = none ∧ hasRoom w.room src.bytes.length = true ∧
        withinDeclared w.contentLength w.written src.bytes.length = true) := by
  constructor
  · intro h
    obtain ⟨h1, h2, h3⟩ := ioCopyLoop_none src.err src.chunks w hw hinv h
    exact ⟨h1, h3, h2⟩
  · rintro ⟨h1, h2, h3⟩
    unfold ioCopy
    rw [ioCopyLoop_ok _ _ w hw h3 h2]
    exact h1

/-- Values under a name in the response headers the writer committed. -/
theorem relayed_values (src : Header) (e : String × List String) (he : e ∈ src) :
    e.2 <:+: (addWhere (fun _ => true) src []).Values e.1 ∧
      (sameName src e.1 = [e] → (addWhere (fun _ => true) src []).Values e.1 = e.2) := by
  have h1 : (addWhere (fun _ => true) src []).Values e.1 =
      valuesUnder (fun _ => true) src (CanonicalHeaderKey e.1) := by
    unfold Header.Values
    rw [index_addWhere]
    rfl
  rw [h1]
  exact ⟨valuesUnder_block _ src e he rfl, fun hu => valuesUnder_unique _ src e rfl hu⟩

/-! ## net/url on plain targets -/

theorem hostByte_cases (P : Char → Prop)
    (hD : ∀ n, 48 ≤ n → n ≤ 57 → P (Char.ofNat n))
    (hU : ∀ n, 65 ≤ n → n ≤ 90 → P (Char.ofNat n))
    (hL : ∀ n, 97 ≤ n → n ≤ 122 → P (Char.ofNat n))
    (hdot : P '.') (hdash : P '-') (hline : P '_') (htilde : P '~') (hcolon : P ':')
    (c : Char) (h : hostByte c = true) : P c := by
  simp only [hostByte, isAlnum, Bool.or_eq_true, Bool.and_eq_true, decide_eq_true_eq] at h
  rcases h with (((((((h | h) | h) | h) | h) | h) | h) | h)
  · rw [← Char.ofNat_toNat c]; exact hL _ h.1 h.2
  · rw [← Char.ofNat_toNat c]; exact hU _ h.1 h.2
  · rw [← Char.ofNat_toNat c]; exact hD _ h.1 h.2
  · rw [h]; exact hdot
  · rw [h]; exact hdash
  · rw [h]; exact hline
  · rw [h]; exact htilde
  · rw [h]; exact hcolon

theorem hostByte_plain (c : Char) (h : hostByte c = true) :
    c ≠ '#' ∧ c ≠ '?' ∧ c ≠ '/' ∧ c ≠ '@' ∧ c ≠ '[' ∧ c ≠ '%' ∧ c ≠ '+' ∧
      shouldEscape c .encodeHost = false := by
  refine hostByte_cases
    (fun c => c ≠ '#' ∧ c ≠ '?' ∧ c ≠ '/' ∧ c ≠ '@' ∧ c ≠ '[' ∧ c ≠ '%' ∧ c ≠ '+' ∧
      shouldEscape c .encodeHost = false)
    (by decide) (by decide) (by decide) (by decide) (by decide) (by decide) (by decide)
    (by decide) c h

theorem getSchemeFrom_lower (raw l : List Char)
    (hl : ∀ c ∈ l, 97 ≤ c.toNat ∧ c.toNat ≤ 122) :
    ∀ pre rest, pre ++ l ≠ [] →
      getSchemeFrom raw pre (l ++ ':' :: rest) = .ok (pre ++ l, rest) := by
  induction l with
  | nil =>
    intro pre rest hne
    have hp : pre ≠ [] := by simpa using hne
    have h1 : ¬ ((97 ≤ ':'.toNat && ':'.toNat ≤ 122) || (65 ≤ ':'.toNat && ':'.toNat ≤ 90)) = true := by
      decide
    have h2 : ¬ ((48 ≤ ':'.toNat && ':'.toNat ≤ 57) || ':' = '+' || ':' = '-' || ':' = '.') = true := by
      decide
    have h3 : pre.isEmpty = false := by
      cases pre with
      | nil => exact absurd rfl hp
      | cons a as => rfl
    simp only [List.nil_append, getSchemeFrom, h1, h2, h3, if_false, if_true, List.append_nil,
      Bool.false_eq_true]
  | cons c cs ih =>
    intro pre rest _
    have hc := hl c (List.mem_cons_self _ _)
    have h1 : ((97 ≤ c.toNat && c.toNat ≤ 122) || (65 ≤ c.toNat && c.toNat ≤ 90)) = true := by
      simp [hc.1, hc.2]
    simp only [List.cons_append, getSchemeFrom, h1, if_true, List.append_eq]
    rw [ih (fun x hx => hl x (List.mem_cons_of_mem _ hx)) (pre ++ [c]) rest (by simp)]
    simp

theorem getScheme_lower (scheme rest : List Char) (hs : lowerScheme scheme = true) :
    getScheme (scheme ++ ':' :: rest) = .ok (scheme, rest) := by
  simp only [lowerScheme, Bool.and_eq_true, Bool.not_eq_true', List.all_eq_true,
    decide_eq_true_eq] at hs
  have hne : scheme ≠ [] := by
    intro h; rw [h] at hs; simp at hs
  have := getSchemeFrom_lower (scheme ++ ':' :: rest) scheme hs.2 [] rest (by simpa using hne)
  simpa [getScheme] using this

theorem lowerScheme_map (scheme : List Char) (hs : lowerScheme scheme = true) :
    scheme.map lowerByte = scheme := by
  simp only [lowerScheme, Bool.and_eq_true, List.all_eq_true, decide_eq_true_eq] at hs
  have h : ∀ c ∈ scheme, lowerByte c = c := by
    intro c hc
    exact lowerByte_other c (by have := hs.2 c hc; omega)
  calc scheme.map lowerByte = scheme.map id := List.map_congr_left h
    _ = scheme := List.map_id _

theorem lowerScheme_ne_nil (scheme : List Char) (hs : lowerScheme scheme = true) :
    scheme ≠ [] := by
  intro h; rw [h] at hs; simp [lowerScheme] at hs

theorem lowerScheme_no (scheme : List Char) (hs : lowerScheme scheme = true) (c : Char)
    (hc : c ∈ scheme) : c ≠ '#' ∧ ¬ (c.toNat < 32 ∨ c.toNat = 127) := by
  simp only [lowerScheme, Bool.and_eq_true, List.all_eq_true, decide_eq_true_eq] at hs
  have h := hs.2 c hc
  refine ⟨?_, by omega⟩
  intro he; rw [he] at h; revert h; decide

theorem unescape_host (h : List Char)
    (hh : ∀ c ∈ h, hostByte c = true) :
    unescapeCheck .encodeHost h = none ∧ unescapeDecode .encodeHost h = h := by
  induction h with
  | nil => exact ⟨rfl, rfl⟩
  | cons c cs ih =>
    have hc := hostByte_plain c (hh c (List.mem_cons_self _ _))
    have ih := ih (fun x hx => hh x (List.mem_cons_of_mem _ hx))
    have h1 : ¬ c = '%' := hc.2.2.2.2.2.1
    have h2 : ¬ c = '+' := hc.2.2.2.2.2.2.1
    constructor
    · unfold unescapeCheck
      simp only [h1, h2, if_false, hc.2.2.2.2.2.2.2, Bool.and_false,
        Bool.false_eq_true, ih.1]
    · unfold unescapeDecode
      simp only [h1, h2, if_false, decide_False, Bool.false_and,
        Bool.false_eq_true, ih.2]

theorem plainHost_bytes (h : List Char) (hh : plainHost h = true) :
    h ≠ [] ∧ ∀ c ∈ h, hostByte c = true := by
  simp only [plainHost, Bool.and_eq_true, Bool.not_eq_true', List.all_eq_true] at hh
  refine ⟨?_, hh.1.2⟩
  intro he; rw [he] at hh; simp at hh

theorem parseHost_plain (quote : String → String)
    (ipLiteral : List Char → Except String (List Char)) (h : List Char)
    (hh : plainHost h = true) : parseHost quote ipLiteral h = .ok h := by
  have hb := (plainHost_bytes h hh).2
  have hu := unescape_host h hb
  have hun : unescape quote .encodeHost h = .ok h := by
    simp only [unescape, hu.1, hu.2]
  have hbr : h.contains '[' = false := by
    rw [Bool.eq_false_iff]
    intro hc
    simp only [List.contains, List.elem_eq_mem, decide_eq_true_eq] at hc
    exact (hostByte_plain _ (hb _ hc)).2.2.2.2.1 rfl
  simp only [plainHost, Bool.and_eq_true] at hh
  unfold parseHost
  simp only [hbr, Bool.false_eq_true, if_false]
  generalize cutLast ':' h = res at hh ⊢
  cases res with
  | none => exact hun
  | some pr =>
    obtain ⟨a, port⟩ := pr
    have hp := hh.2
    simp only at hp
    simp only [hp, if_true, hun]

theorem parseAuthority_plain (quote : String → String)
    (ipLiteral : List Char → Except String (List Char)) (h : List Char)
    (hh : plainHost h = true) : parseAuthority quote ipLiteral h = .ok (none, h) := by
  have hb := (plainHost_bytes h hh).2
  have hat : cutLast '@' h = none := by
    unfold cutLast
    have : h.contains '@' = false := by
      rw [Bool.eq_false_iff]
      intro hc
      simp only [List.contains, List.elem_eq_mem, decide_eq_true_eq] at hc
      exact (hostByte_plain _ (hb _ hc)).2.2.2.1 rfl
    simp only [this, Bool.false_eq_true, if_false]
  unfold parseAuthority
  simp only [hat, parseHost_plain quote ipLiteral h hh]

theorem takeWhile_ne_of_not_mem (sep : Char) (l rest : List Char) (h : sep ∉ l) :
    (l ++ rest).takeWhile (fun c => c != sep) = l ++ rest.takeWhile (fun c => c != sep) := by
  apply List.takeWhile_append_of_pos
  intro c hc
  simp only [bne_iff_ne, ne_eq]
  intro he; rw [he] at hc; exact h hc

theorem dropWhile_ne_of_not_mem (sep : Char) (l rest : List Char) (h : sep ∉ l) :
    (l ++ rest).dropWhile (fun c => c != sep) = rest.dropWhile (fun c => c != sep) := by
  apply List.dropWhile_append_of_pos
  intro c hc
  simp only [bne_iff_ne, ne_eq]
  intro he; rw [he] at hc; exact h hc

theorem not_mem_takeWhile_ne (sep : Char) (l : List Char) :
    sep ∉ l.takeWhile (fun c => c != sep) := by
  intro h
  have := List.mem_takeWhile_imp h
  simp at this

theorem dropWhile_ne_shape (sep : Char) (l : List Char) :
    l.dropWhile (fun c => c != sep) = [] ∨
      l.dropWhile (fun c => c != sep) = sep :: (l.dropWhile (fun c => c != sep)).drop 1 := by
  have h := List.head?_dropWhile_not (fun c => c != sep) l
  cases hd : l.dropWhile (fun c => c != sep) with
  | nil => exact Or.inl rfl
  | cons c t =>
    right
    rw [hd] at h
    simp only [List.head?_cons, bne_eq_false_iff_eq] at h
    rw [h]; rfl

/-- How `parse` splits the text after the scheme at the first question mark. -/
theorem query_split (a : List Char) (fq : Bool)
    (hfq : fq = (decide (a.getLast? = some '?') && decide (a.count '?' = 1))) :
    (if fq = true then a.dropLast else (cut '?' a).1) = a.takeWhile (fun c => c != '?') ∧
      a = a.takeWhile (fun c => c != '?') ++
        (if fq = true ∨ (if fq = true then [] else (cut '?' a).2.1) ≠ [] then
          '?' :: (if fq = true then [] else (cut '?' a).2.1)
         else []) := by
  cases fq with
  | true =>
    have h := hfq.symm
    simp only [Bool.and_eq_true, decide_eq_true_eq] at h
    have ha : a.dropLast ++ ['?'] = a := List.dropLast_append_getLast? '?' (by simp [h.1])
    have hcount : List.count '?' a.dropLast = 0 := by
      have := h.2
      rw [← ha, List.count_append] at this
      simp at this
      exact this
    have hnot : '?' ∉ a.dropLast := List.count_eq_zero.1 hcount
    have htw : a.takeWhile (fun c => c != '?') = a.dropLast := by
      conv_lhs => rw [← ha]
      rw [takeWhile_ne_of_not_mem '?' _ _ hnot]
      simp
    simp only [if_true, htw, true_or]
    exact ⟨trivial, ha.symm⟩
  | false =>
    simp only [Bool.false_eq_true, if_false, false_or, cut]
    refine ⟨trivial, ?_⟩
    rcases dropWhile_ne_shape '?' a with hd | hd
    · simp only [hd, List.drop_nil, ne_eq, not_true_eq_false, if_false, List.append_nil]
      have := List.takeWhile_append_dropWhile (fun c => c != '?') a
      rw [hd, List.append_nil] at this
      exact this.symm
    · by_cases hq : (a.dropWhile (fun c => c != '?')).drop 1 = []
      · exfalso
        rw [hq] at hd
        have ha : a = a.takeWhile (fun c => c != '?') ++ ['?'] := by
          have := List.takeWhile_append_dropWhile (fun c => c != '?') a
          rw [hd] at this
          exact this.symm
        have h1 : a.getLast? = some '?' := by rw [ha]; exact List.getLast?_concat _
        have h2 : a.count '?' = 1 := by
          rw [ha, List.count_append,
            List.count_eq_zero_of_not_mem (not_mem_takeWhile_ne '?' a)]
          rfl
        rw [h1, h2] at hfq
        simp at hfq
      · simp only [ne_eq, hq, not_false_eq_true, if_true]
        rw [← hd]
        exact (List.takeWhile_append_dropWhile (fun c => c != '?') a).symm

theorem parse_plain (quote : String → String)
    (ipLiteral : List Char → Except String (List Char)) (scheme host r : List Char)
    (hs : lowerScheme scheme = true) (hh : plainHost host = true)
    (hr : r = [] ∨ r.head? = some '/' ∨ r.head? = some '?') :
    ∃ (fq : Bool) (path query : List Char),
      (path = [] ∨ path.head? = some '/') ∧
      path = r.takeWhile (fun c => c != '?') ∧
      r = path ++ (if fq = true ∨ query ≠ [] then '?' :: query else []) ∧
      parse quote ipLiteral (scheme ++ ':' :: '/' :: '/' :: (host ++ r)) =
        if stringContainsCTLByte (scheme ++ ':' :: '/' :: '/' :: (host ++ r)) = true then
          .error "net/url: invalid control character in URL"
        else
          URL.setPath quote
            { URL.empty with Scheme := String.mk scheme, ForceQuery := fq,
                             RawQuery := String.mk query, User := none,
                             Host := String.mk host } path := by
  have hne : scheme ++ ':' :: '/' :: '/' :: (host ++ r) ≠ ['*'] := by
    intro h
    have := congrArg List.length h
    simp at this
    omega
  unfold parse
  simp only [hne, if_false, getScheme_lower scheme _ hs, lowerScheme_map scheme hs]
  generalize hfq : (decide (('/' :: '/' :: (host ++ r)).getLast? = some '?') &&
    decide (('/' :: '/' :: (host ++ r)).count '?' = 1)) = fq
  obtain ⟨hq1, hq2⟩ := query_split ('/' :: '/' :: (host ++ r)) fq hfq.symm
  have hb := (plainHost_bytes host hh).2
  have hnq : '?' ∉ '/' :: '/' :: host := by
    intro hm
    simp only [List.mem_cons] at hm
    rcases hm with hm | hm | hm
    · revert hm; decide
    · revert hm; decide
    · exact (hostByte_plain _ (hb _ hm)).2.1 rfl
  have hns : '/' ∉ host := fun hm => (hostByte_plain _ (hb _ hm)).2.2.1 rfl
  have htw : ('/' :: '/' :: (host ++ r)).takeWhile (fun c => c != '?') =
      '/' :: '/' :: (host ++ r.takeWhile (fun c => c != '?')) :=
    takeWhile_ne_of_not_mem '?' ('/' :: '/' :: host) r hnq
  have hpath : r.takeWhile (fun c => c != '?') = [] ∨
      (r.takeWhile (fun c => c != '?')).head? = some '/' := by
    rcases hr with h | h | h
    · left; rw [h]; rfl
    · right; rw [List.head?_takeWhile, h]; rfl
    · left
      obtain ⟨t, ht⟩ := List.head?_eq_some_iff.1 h
      rw [ht]; rfl
  rw [htw] at hq1 hq2
  refine ⟨fq, r.takeWhile (fun c => c != '?'),
    (if fq = true then [] else (cut '?' ('/' :: '/' :: (host ++ r))).2.1), hpath, rfl, ?_, ?_⟩
  · have h2 : ('/' :: '/' :: host) ++ r = ('/' :: '/' :: host) ++
        (r.takeWhile (fun c => c != '?') ++
          (if fq = true ∨ (if fq = true then [] else (cut '?' ('/' :: '/' :: (host ++ r))).2.1) ≠ []
            then '?' :: (if fq = true then [] else (cut '?' ('/' :: '/' :: (host ++ r))).2.1)
            else [])) := by
      simpa using hq2
    exact List.append_cancel_left h2
  · rw [hq1]
    have hta : (host ++ r.takeWhile (fun c => c != '?')).takeWhile (fun c => c != '/') = host := by
      rw [takeWhile_ne_of_not_mem '/' host _ hns]
      rcases hpath with h | h
      · rw [h]; simp
      · obtain ⟨t, ht⟩ := List.head?_eq_some_iff.1 h
        rw [ht]; simp
    have hda : (host ++ r.takeWhile (fun c => c != '?')).dropWhile (fun c => c != '/') =
        r.takeWhile (fun c => c != '?') := by
      rw [dropWhile_ne_of_not_mem '/' host _ hns]
      rcases hpath with h | h
      · rw [h]; rfl
      · obtain ⟨t, ht⟩ := List.head?_eq_some_iff.1 h
        rw [ht]; simp
    simp only [List.head?_cons, ne_eq, not_true_eq_false, false_and, if_false,
      lowerScheme_ne_nil scheme hs, not_false_eq_true, true_or, true_and, List.isPrefixOf,
      beq_self_eq_true, Bool.and_self, Bool.true_and, if_true, List.drop_succ_cons, List.drop_zero, hta, hda,
      parseAuthority_plain quote ipLiteral host hh]

theorem setPath_host (quote : String → String) (base u : URL) (p : List Char)
    (h : URL.setPath quote base p = .ok u) : u.Host = base.Host := by
  unfold URL.setPath at h
  cases hc : unescape quote .encodePath p with
  | error e => rw [hc] at h; cases h
  | ok path =>
    rw [hc] at h
    simp only [Except.ok.injEq] at h
    subst h
    rfl

theorem setFragment_host (quote : String → String) (base u : URL) (f : List Char)
    (h : URL.setFragment quote base f = .ok u) : u.Host = base.Host := by
  unfold URL.setFragment at h
  cases hc : unescape quote .encodeFragment f with
  | error e => rw [hc] at h; cases h
  | ok frag =>
    rw [hc] at h
    simp only [Except.ok.injEq] at h
    subst h
    rfl

/-- A successful `Parse` of `scheme://host` followed by nothing or by text
that starts with a slash gives a URL whose host is `host`. -/
theorem Parse_host_plain (quote : String → String)
    (ipLiteral : List Char → Except String (List Char)) (scheme host rest : List Char)
    (u : URL)
    (hs : lowerScheme scheme = true) (hh : plainHost host = true)
    (hr : rest = [] ∨ rest.head? = some '/')
    (h : Parse quote ipLiteral (String.mk (scheme ++ ':' :: '/' :: '/' :: (host ++ rest)))
      = .ok u) :
    u.Host = String.mk host := by
  have hb := plainHost_bytes host hh
  have hnf : '#' ∉ scheme ++ ':' :: '/' :: '/' :: host := by
    intro hm
    simp only [List.mem_append, List.mem_cons] at hm
    rcases hm with hm | hm | hm | hm | hm
    · exact (lowerScheme_no scheme hs _ hm).1 rfl
    · revert hm; decide
    · revert hm; decide
    · revert hm; decide
    · exact (hostByte_plain _ (hb.2 _ hm)).1 rfl
  have hcut1 : (cut '#' (scheme ++ ':' :: '/' :: '/' :: (host ++ rest))).1 =
      scheme ++ ':' :: '/' :: '/' :: (host ++ rest.takeWhile (fun c => c != '#')) := by
    have := takeWhile_ne_of_not_mem '#' _ rest hnf
    simpa [cut] using this
  have hr2 : rest.takeWhile (fun c => c != '#') = [] ∨
      (rest.takeWhile (fun c => c != '#')).head? = some '/' ∨
      (rest.takeWhile (fun c => c != '#')).head? = some '?' := by
    rcases hr with hr | hr
    · left; rw [hr]; rfl
    · right; left; rw [List.head?_takeWhile, hr]; rfl
  obtain ⟨fq, p2, q2, _, _, _, hparse⟩ :=
    parse_plain quote ipLiteral scheme host (rest.takeWhile (fun c => c != '#')) hs hh hr2
  unfold Parse at h
  simp only [hcut1] at h
  rw [hparse] at h
  by_cases hctl : stringContainsCTLByte
      (scheme ++ ':' :: '/' :: '/' :: (host ++ rest.takeWhile (fun c => c != '#'))) = true
  · simp only [hctl, if_true] at h
    cases h
  · simp only [hctl, if_false, Bool.false_eq_true] at h
    cases hsp : URL.setPath quote
        { URL.empty with Scheme := String.mk scheme, ForceQuery := fq,
                         RawQuery := String.mk q2, User := none,
                         Host := String.mk host } p2 with
    | error e => rw [hsp] at h; cases h
    | ok u2 =>
      rw [hsp] at h
      have h2 := setPath_host quote _ u2 p2 hsp
      simp only at h
      by_cases hfrag : (cut '#' (scheme ++ ':' :: '/' :: '/' :: (host ++ rest))).2.1 = []
      · simp only [hfrag, if_true, Except.ok.injEq] at h
        subst h
        exact h2
      · simp only [hfrag, if_false] at h
        cases hsf : URL.setFragment quote u2
            (cut '#' (scheme ++ ':' :: '/' :: '/' :: (host ++ rest))).2.1 with
        | error e => rw [hsf] at h; cases h
        | ok u3 =>
          rw [hsf] at h
          simp only [Except.ok.injEq] at h
          subst h
          rw [setFragment_host quote u2 _ _ hsf]
          exact h2

theorem append_mk (a : List Char) (s : String) : String.mk a ++ s = String.mk (a ++ s.data) := by
  cases s; rfl

/-- For a target `scheme://host` with or without a rooted path and a
request-target that starts with a slash, the request `ServeHTTP` dispatches
has as its Host and as the host of its URL the host of the target (an empty
port dropped), whatever Host the caller supplied. -/
theorem ServeHTTP_host_of_target (env : Env) (world : World) (p : Handler)
    (w : ResponseWriter) (r req : Request)
    (ipLiteral : List Char → Except String (List Char)) (scheme host tpath : List Char)
    (hP : env.Parse = Parse env.Quote ipLiteral)
    (ht : p.targetUrl = String.mk (scheme ++ ':' :: '/' :: '/' :: (host ++ tpath)))
    (hs : lowerScheme scheme = true) (hh : plainHost host = true)
    (htp : tpath = [] ∨ tpath.head? = some '/')
    (hu : r.RequestURI.data.head? = some '/')
    (h : req ∈ (ServeHTTP env world p w r).dispatched) :
    req.Host = removeEmptyPort (String.mk host) ∧
      req.URL.Host = removeEmptyPort (String.mk host) := by
  obtain ⟨req0, hn, rfl⟩ := dispatched_inv env world p w r req h
  obtain ⟨u, hparse, hurl⟩ := (NewRequest_ok env _ _ _ req0 hn).2.1
  have hrest : (tpath ++ r.RequestURI.data) = [] ∨
      (tpath ++ r.RequestURI.data).head? = some '/' := by
    right
    rcases htp with htp | htp
    · rw [htp]; exact hu
    · obtain ⟨t, ht2⟩ := List.head?_eq_some_iff.1 htp
      rw [ht2]; rfl
  have hstr : p.targetUrl ++ r.RequestURI =
      String.mk (scheme ++ ':' :: '/' :: '/' :: (host ++ (tpath ++ r.RequestURI.data))) := by
    rw [ht, append_mk]
    simp only [List.append_assoc, List.cons_append]
  rw [hP, hstr] at hparse
  have hhost := Parse_host_plain env.Quote ipLiteral scheme host _ u hs hh hrest hparse
  have hfin : (outbound r req0).URL.Host = removeEmptyPort (String.mk host) := by
    rw [(outbound_fields r req0).2.1, hurl, ← hhost]
  exact ⟨hfin ▸ (outbound_fields r req0).2.2.1 ▸ rfl, hfin⟩

/-- C3 fails on the code: the handler has the target `http://127.0.0.1:9000`,
the caller sends the request-target `x:@test.example.com/` and the Host
`test.example.com`. The URL computed from target ++ request-target takes
`127.0.0.1:9000x:` as user information and `test.example.com` as its host, so
the request `ServeHTTP` dispatches goes out with the caller's Host, which is
not the host of the target. -/
theorem ServeHTTP_host_from_request_target :
    testHandler.targetUrl = "http://127.0.0.1:9000" ∧
      (Parse plainQuote noIPLiteral testHandler.targetUrl).toOption.map (fun u => u.Host) =
        some "127.0.0.1:9000" ∧
      otherHostRequest.RequestURI = "x:@test.example.com/" ∧
      otherHostRequest.Host = "test.example.com" ∧
      (ServeHTTP (testEnv (.ok helloResponse)) initialWorld testHandler openWriter
        otherHostRequest).dispatched.map (fun req => req.Host) = ["test.example.com"] ∧
      (ServeHTTP (testEnv (.ok helloResponse)) initialWorld testHandler openWriter
        otherHostRequest).dispatched.map (fun req => req.URL.Host) = ["test.example.com"] ∧
      (ServeHTTP (testEnv (.ok helloResponse)) initialWorld testHandler openWriter
        otherHostRequest).dispatched.map (fun req => req.URL.User) =
        [some { username := "127.0.0.1", password := "9000x:", passwordSet := true }] := by
  decide

/-- C4: the header collection of every request `ServeHTTP` dispatches holds no
value under any spelling of a hop-by-hop name, and it holds the values of
every caller-supplied end-to-end header unchanged: together and in their
order under that name, and exactly those values when no other key of the
inbound collection has the same canonical form. -/
theorem ServeHTTP_outbound_headers (env : Env) (world : World) (p : Handler)
    (w : ResponseWriter) (r req : Request)
    (h : req ∈ (ServeHTTP env world p w r).dispatched) :
    (∀ name key, name ∈ hopByHopHeaders → asciiLower key = asciiLower name →
        req.Header.Values key = [] ∧ req.Header.Get key = "") ∧
      (∀ e ∈ r.Header, isHopByHop e.1 = false →
        e.2 <:+: req.Header.Values e.1 ∧
          (sameName r.Header e.1 = [e] → req.Header.Values e.1 = e.2)) := by
  obtain ⟨req0, hn, rfl⟩ := dispatched_inv env world p w r req h
  have h0 := NewRequest_ok env _ _ _ req0 hn
  have hh : (outbound r req0).Header = copyHeaders r.Header [] := by
    rw [(outbound_fields r req0).2.2.2.2, h0.2.2.2.1]
  rw [hh]
  refine ⟨?_, ?_⟩
  · intro name key hname hkey
    have hv := copyHeaders_hop_values r.Header name key hname hkey
    refine ⟨hv, ?_⟩
    unfold Header.Get; rw [hv]
  · intro e he hhop
    have hk : (fun name => !isHopByHop name) e.1 = true := by simp [hhop]
    rw [copyHeaders_values_eq r.Header e.1]
    exact ⟨valuesUnder_block _ r.Header e he hk,
      fun hu => valuesUnder_unique _ r.Header e hk hu⟩

/-- C4 on the request of `TestReverseProxyWithHeaders`: no Connection value is
sent, and `X-Test-Header: test value` is. -/
theorem ServeHTTP_outbound_headers_witness :
    outbound testRequest testNewRequest ∈
        (ServeHTTP (testEnv (.ok helloResponse)) initialWorld testHandler openWriter
          testRequest).dispatched ∧
      (outbound testRequest testNewRequest).Header.Get "Connection" = "" ∧
      (outbound testRequest testNewRequest).Header.Values "X-Test-Header" = ["test value"] :=
  ⟨by decide,
    ((ServeHTTP_outbound_headers (testEnv (.ok helloResponse)) initialWorld testHandler
      openWriter testRequest (outbound testRequest testNewRequest) (by decide)).1
      "Connection" "Connection" (by decide) (by decide)).2,
    ((ServeHTTP_outbound_headers (testEnv (.ok helloResponse)) initialWorld testHandler
      openWriter testRequest (outbound testRequest testNewRequest) (by decide)).2
      ("X-Test-Header", ["test value"]) (by decide) (by decide)).2 (by decide)⟩


/-- C6 as stated fails: when the round trip fails with the timeout error, the
body the caller receives is the error text followed by a newline, not the
error text. -/
theorem ServeHTTP_timeout_body :
    (ServeHTTP (testEnv (.error timeoutText)) initialWorld testHandler openWriter
        testRequest).w.status = 500 ∧
      (ServeHTTP (testEnv (.error timeoutText)) initialWorld testHandler openWriter
        testRequest).w.body = timeoutText.data ++ ['\n'] ∧
      (ServeHTTP (testEnv (.error timeoutText)) initialWorld testHandler openWriter
        testRequest).w.body ≠ timeoutText.data := by
  decide

/-- C6, amended: when the dispatch fails with the error `err`, `ServeHTTP`
answers a fresh writer with status 500, the two headers of `http.Error` and
nothing else as committed headers, and hands the caller's connection the text
of `err` followed by a newline: the body is that text and the newline when
the connection takes them. One request was dispatched, and no header, status
or body byte of an upstream response is written. -/
theorem ServeHTTP_dispatch_failure (env : Env) (world : World) (p : Handler)
    (r req0 : Request) (err : String) (room : Option Nat) (writeErr : String)
    (h : NewRequest env r.Method (p.targetUrl ++ r.RequestURI) r.Body = .ok req0)
    (hdo : env.Do (world.clients p.client) (outbound r req0) = .error err) :
    (ServeHTTP env world p (ResponseWriter.fresh room writeErr) r).dispatched =
        [outbound r req0] ∧
      (ServeHTTP env world p (ResponseWriter.fresh room writeErr) r).w.wroteHeader = true ∧
      (ServeHTTP env world p (ResponseWriter.fresh room writeErr) r).w.status = 500 ∧
      (ServeHTTP env world p (ResponseWriter.fresh room writeErr) r).w.sent =
        [("Content-Type", ["text/plain; charset=utf-8"]),
         ("X-Content-Type-Options", ["nosniff"])] ∧
      (ServeHTTP env world p (ResponseWriter.fresh room writeErr) r).w.body =
        accepted room (err.data ++ ['\n']) ∧
      (hasRoom room (err.data ++ ['\n']).length = true →
        (ServeHTTP env world p (ResponseWriter.fresh room writeErr) r).w.body =
          err.data ++ ['\n']) := by
  rw [ServeHTTP_dispatch_error env world p _ r req0 err h hdo, Error_fresh]
  refine ⟨rfl, rfl, rfl, rfl, rfl, ?_⟩
  intro hr
  exact accepted_of_hasRoom room _ hr

/-- C6, amended, on the request of the test and a round trip that timed out. -/
theorem ServeHTTP_dispatch_failure_witness :
    NewRequest (testEnv (.error timeoutText)) testRequest.Method
        (testHandler.targetUrl ++ testRequest.RequestURI) testRequest.Body =
        .ok testNewRequest ∧
      (testEnv (.error timeoutText)).Do (initialWorld.clients testHandler.client)
        (outbound testRequest testNewRequest) = .error timeoutText ∧
      (ServeHTTP (testEnv (.error timeoutText)) initialWorld testHandler openWriter
        testRequest).w.status = 500 ∧
      (ServeHTTP (testEnv (.error timeoutText)) initialWorld testHandler openWriter
        testRequest).w.body = timeoutText.data ++ ['\n'] :=
  ⟨by rfl, by rfl,
   (ServeHTTP_dispatch_failure (testEnv (.error timeoutText)) initialWorld testHandler
      testRequest testNewRequest timeoutText none "broken pipe" (by rfl) (by rfl)).2.2.1,
   (ServeHTTP_dispatch_failure (testEnv (.error timeoutText)) initialWorld testHandler
      testRequest testNewRequest timeoutText none "broken pipe" (by rfl)
      (by rfl)).2.2.2.2.2 (by rfl)⟩

/-- C7: when the dispatch succeeds and the body copy succeeds (the upstream
stream ends with `io.EOF`, the caller's connection takes all its bytes, and
they stay within the Content-Length the relayed headers declare, if they
declare one), the response `ServeHTTP` writes to a fresh writer has the
upstream status code, a body equal to the upstream body, and as committed
headers the upstream headers added one by one without any filter: under every
upstream name, hop-by-hop or not, the values of that entry stand together in
their original order, and are exactly the values held under that name when no
other upstream key has the same canonical form. -/
theorem ServeHTTP_relays_response (env : Env) (world : World) (p : Handler)
    (r req0 : Request) (resp : Response) (room : Option Nat) (writeErr : String)
    (h : NewRequest env r.Method (p.targetUrl ++ r.RequestURI) r.Body = .ok req0)
    (hdo : env.Do (world.clients p.client) (outbound r req0) = .ok resp)
    (heof : resp.Body.err = none)
    (hroom : hasRoom room resp.Body.bytes.length = true)
    (hlen : withinDeclared (declaredLength (addWhere (fun _ => true) resp.Header [])) 0
      resp.Body.bytes.length = true) :
    (ServeHTTP env world p (ResponseWriter.fresh room writeErr) r).w.wroteHeader = true ∧
      (ServeHTTP env world p (ResponseWriter.fresh room writeErr) r).w.status =
        resp.StatusCode ∧
      (ServeHTTP env world p (ResponseWriter.fresh room writeErr) r).w.body =
        resp.Body.bytes ∧
      (ServeHTTP env world p (ResponseWriter.fresh room writeErr) r).w.sent =
        addWhere (fun _ => true) resp.Header [] ∧
      ∀ e ∈ resp.Header,
        e.2 <:+: (ServeHTTP env world p (ResponseWriter.fresh room writeErr) r).w.sent.Values e.1 ∧
          (sameName resp.Header e.1 = [e] →
            (ServeHTTP env world p (ResponseWriter.fresh room writeErr) r).w.sent.Values e.1 =
              e.2) := by
  obtain ⟨header, hw⟩ :=
    ServeHTTP_relay_ok env world p r req0 resp room writeErr h hdo heof hroom hlen
  rw [hw]
  refine ⟨rfl, rfl, rfl, rfl, ?_⟩
  intro e he
  exact relayed_values resp.Header e he

/-- C7 on the test origin: status 200, the body `Hello from the test server!`
and the upstream headers, the hop-by-hop header `Upgrade` included. -/
theorem ServeHTTP_relays_response_witness :
    NewRequest (testEnv (.ok helloResponse)) testRequest.Method
        (testHandler.targetUrl ++ testRequest.RequestURI) testRequest.Body =
        .ok testNewRequest ∧
      (testEnv (.ok helloResponse)).Do (initialWorld.clients testHandler.client)
        (outbound testRequest testNewRequest) = .ok helloResponse ∧
      helloResponse.Body.err = none ∧
      hasRoom none helloResponse.Body.bytes.length = true ∧
      withinDeclared (declaredLength (addWhere (fun _ => true) helloResponse.Header [])) 0
        helloResponse.Body.bytes.length = true ∧
      (ServeHTTP (testEnv (.ok helloResponse)) initialWorld testHandler openWriter
        testRequest).w.status = 200 ∧
      (ServeHTTP (testEnv (.ok helloResponse)) initialWorld testHandler openWriter
        testRequest).w.body = "Hello from the test server!".data ∧
      (ServeHTTP (testEnv (.ok helloResponse)) initialWorld testHandler openWriter
        testRequest).w.sent.Values "Upgrade" = ["h2c"] :=
  ⟨by rfl, by rfl, by rfl, by rfl, by rfl,
   (ServeHTTP_relays_response (testEnv (.ok helloResponse)) initialWorld testHandler
      testRequest testNewRequest helloResponse none "broken pipe" (by rfl) (by rfl) (by rfl)
      (by rfl) (by rfl)).2.1,
   (ServeHTTP_relays_response (testEnv (.ok helloResponse)) initialWorld testHandler
      testRequest testNewRequest helloResponse none "broken pipe" (by rfl) (by rfl) (by rfl)
      (by rfl) (by rfl)).2.2.1,
   ((ServeHTTP_relays_response (testEnv (.ok helloResponse)) initialWorld testHandler
      testRequest testNewRequest helloResponse none "broken pipe" (by rfl) (by rfl) (by rfl)
      (by rfl) (by rfl)).2.2.2.2 ("Upgrade", ["h2c"]) (by decide)).2 (by decide)⟩

/-- C8 fails on the code: the upstream body stream breaks after the bytes
`Hello` with the error `unexpected EOF`; status 200 and the upstream headers
are already committed, and `ServeHTTP` still calls `http.Error`. The status
stays 200 and the committed headers stay the upstream ones, the header map of
the writer is changed after the commit, and the error text and a newline are
written after the partial body. When the relayed headers declare
`Content-Length: 10` the server refuses that write, and the caller has the
partial body under status 200 and no sign of the failure. -/
theorem ServeHTTP_writes_after_failed_copy :
    (ServeHTTP (testEnv (.ok brokenResponse)) initialWorld testHandler openWriter
        testRequest).w.status = 200 ∧
      (ServeHTTP (testEnv (.ok brokenResponse)) initialWorld testHandler openWriter
        testRequest).w.body = "Hello".data ++ "unexpected EOF".data ++ ['\n'] ∧
      (ServeHTTP (testEnv (.ok brokenResponse)) initialWorld testHandler openWriter
        testRequest).w.body ≠ "Hello".data ∧
      (ServeHTTP (testEnv (.ok brokenResponse)) initialWorld testHandler openWriter
        testRequest).w.sent = [("Content-Type", ["text/plain; charset=utf-8"])] ∧
      (ServeHTTP (testEnv (.ok brokenResponse)) initialWorld testHandler openWriter
        testRequest).w.sent.Values "X-Content-Type-Options" = [] ∧
      (ServeHTTP (testEnv (.ok brokenResponse)) initialWorld testHandler openWriter
        testRequest).w.header.Values "X-Content-Type-Options" = ["nosniff"] ∧
      (ServeHTTP (testEnv (.ok brokenDeclaredResponse)) initialWorld testHandler openWriter
        testRequest).w.status = 200 ∧
      (ServeHTTP (testEnv (.ok brokenDeclaredResponse)) initialWorld testHandler openWriter
        testRequest).w.sent =
        [("Content-Type", ["text/plain; charset=utf-8"]), ("Content-Length", ["10"])] ∧
      (ServeHTTP (testEnv (.ok brokenDeclaredResponse)) initialWorld testHandler openWriter
        testRequest).w.body = "Hello".data := by
  decide

/-- C10 as stated fails: for an inbound request whose method is not a token,
construction fails, no request is dispatched and the status is 500, but the
body is the error text followed by a newline, not the error text. -/
theorem ServeHTTP_bad_method_body :
    (NewRequest (testEnv (.ok helloResponse)) badMethodRequest.Method
        (testHandler.targetUrl ++ badMethodRequest.RequestURI)
        badMethodRequest.Body).toBool = false ∧
      (ServeHTTP (testEnv (.ok helloResponse)) initialWorld testHandler openWriter
        badMethodRequest).dispatched = [] ∧
      (ServeHTTP (testEnv (.ok helloResponse)) initialWorld testHandler openWriter
        badMethodRequest).w.status = 500 ∧
      (ServeHTTP (testEnv (.ok helloResponse)) initialWorld testHandler openWriter
        badMethodRequest).w.body =
        "net/http: invalid method \"BAD METHOD\"".data ++ ['\n'] ∧
      (ServeHTTP (testEnv (.ok helloResponse)) initialWorld testHandler openWriter
        badMethodRequest).w.body ≠ "net/http: invalid method \"BAD METHOD\"".data := by
  decide

/-- C10, amended: when `http.NewRequest` fails with the error `err` (the
method, with `GET` for an empty one, is not a token, or the string
target ++ request-target does not parse), `ServeHTTP` dispatches nothing and
answers a fresh writer with status 500, the two headers of `http.Error`, and
hands the caller's connection the text of `err` followed by a newline: the
body is that text and the newline when the connection takes them. -/
theorem ServeHTTP_construction_failure (env : Env) (world : World) (p : Handler)
    (r : Request) (err : String) (room : Option Nat) (writeErr : String)
    (h : NewRequest env r.Method (p.targetUrl ++ r.RequestURI) r.Body = .error err) :
    (ServeHTTP env world p (ResponseWriter.fresh room writeErr) r).dispatched = [] ∧
      (ServeHTTP env world p (ResponseWriter.fresh room writeErr) r).w.wroteHeader = true ∧
      (ServeHTTP env world p (ResponseWriter.fresh room writeErr) r).w.status = 500 ∧
      (ServeHTTP env world p (ResponseWriter.fresh room writeErr) r).w.sent =
        [("Content-Type", ["text/plain; charset=utf-8"]),
         ("X-Content-Type-Options", ["nosniff"])] ∧
      (ServeHTTP env world p (ResponseWriter.fresh room writeErr) r).w.body =
        accepted room (err.data ++ ['\n']) ∧
      (hasRoom room (err.data ++ ['\n']).length = true →
        (ServeHTTP env world p (ResponseWriter.fresh room writeErr) r).w.body =
          err.data ++ ['\n']) ∧
      ((validMethod (if r.Method = "" then "GET" else r.Method) = false ∧
          err = "net/http: invalid method " ++
            env.Quote (if r.Method = "" then "GET" else r.Method)) ∨
        env.Parse (p.targetUrl ++ r.RequestURI) = .error err) := by
  have hwhy := NewRequest_error env _ _ _ err h
  rw [ServeHTTP_construction_error env world p _ r err h, Error_fresh]
  refine ⟨rfl, rfl, rfl, rfl, rfl, ?_, hwhy⟩
  intro hr
  exact accepted_of_hasRoom room _ hr

/-- C10, amended, on a request-target that `url.Parse` refuses. -/
theorem ServeHTTP_construction_failure_witness :
    NewRequest (testEnv (.ok helloResponse)) badTargetRequest.Method
        (testHandler.targetUrl ++ badTargetRequest.RequestURI) badTargetRequest.Body =
        .error badTargetText ∧
      (ServeHTTP (testEnv (.ok helloResponse)) initialWorld testHandler openWriter
        badTargetRequest).dispatched = [] ∧
      (ServeHTTP (testEnv (.ok helloResponse)) initialWorld testHandler openWriter
        badTargetRequest).w.status = 500 ∧
      (ServeHTTP (testEnv (.ok helloResponse)) initialWorld testHandler openWriter
        badTargetRequest).w.body =
        badTargetText.data ++ ['\n'] :=
  ⟨by rfl,
   (ServeHTTP_construction_failure (testEnv (.ok helloResponse)) initialWorld testHandler
      badTargetRequest badTargetText none "broken pipe"
      (by rfl)).1,
   (ServeHTTP_construction_failure (testEnv (.ok helloResponse)) initialWorld testHandler
      badTargetRequest badTargetText none "broken pipe"
      (by rfl)).2.2.1,
   (ServeHTTP_construction_failure (testEnv (.ok helloResponse)) initialWorld testHandler
      badTargetRequest badTargetText none "broken pipe"
      (by rfl)).2.2.2.2.2.1 (by rfl)⟩

/-! ## Handler construction -/

/-- What `newHandler(t, withTimeout(a))` does: the handler points to
`http.DefaultClient`, and the timeout of that client is set to `a`; no other
client is touched. -/
theorem newHandler_withTimeout (t : String) (a : Int) (world : World) :
    (newHandler t [withTimeout a] world).1 = { client := DefaultClient, targetUrl := t } ∧
      timeoutInForce (newHandler t [withTimeout a] world).2
        (newHandler t [withTimeout a] world).1 = a ∧
      ∀ ptr, ptr ≠ DefaultClient →
        (newHandler t [withTimeout a] world).2.clients ptr = world.clients ptr := by
  refine ⟨rfl, ?_, ?_⟩
  · simp [newHandler, withTimeout, timeoutInForce, World.setTimeout]
  · intro ptr hne
    simp [newHandler, withTimeout, World.setTimeout, hne]

/-- Whatever the targets and timeouts, constructing a second handler with
`withTimeout(b)` makes `b` the timeout in force for the first handler. -/
theorem newHandler_twice (t1 t2 : String) (a b : Int) (world : World) :
    timeoutInForce
        (newHandler t2 [withTimeout b] (newHandler t1 [withTimeout a] world).2).2
        (newHandler t1 [withTimeout a] world).1 = b ∧
      (newHandler t1 [withTimeout a] world).1.client =
        (newHandler t2 [withTimeout b] (newHandler t1 [withTimeout a] world).2).1.client := by
  refine ⟨?_, rfl⟩
  simp [newHandler, withTimeout, timeoutInForce, World.setTimeout]

/-- The same for two servers made by `NewServer`: the timeout of the second
is the one in force for the handler of the first. -/
theorem NewServer_twice (t1 t2 addr1 addr2 : String) (a b : Int) (world : World) :
    timeoutInForce (NewServer t2 addr2 b (NewServer t1 addr1 a world).2).2
        (NewServer t1 addr1 a world).1.Handler = b := by
  simp [NewServer, newHandler, withTimeout, timeoutInForce, World.setTimeout]

/-- C9 fails on the code: after `newHandler(t1, withTimeout(100ms))` the
timeout in force for the first handler is 100ms, and after a following
`newHandler(t2, withTimeout(10s))` it is 10s, because both handlers hold the
pointer `http.DefaultClient`. -/
theorem newHandler_timeout_overwritten :
    timeoutInForce (newHandler "http://a.test" [withTimeout 100000000] initialWorld).2
        (newHandler "http://a.test" [withTimeout 100000000] initialWorld).1 = 100000000 ∧
      timeoutInForce
        (newHandler "http://b.test" [withTimeout 10000000000]
          (newHandler "http://a.test" [withTimeout 100000000] initialWorld).2).2
        (newHandler "http://a.test" [withTimeout 100000000] initialWorld).1 = 10000000000 ∧
      (newHandler "http://a.test" [withTimeout 100000000] initialWorld).1.client =
        DefaultClient ∧
      (newHandler "http://b.test" [withTimeout 10000000000]
          (newHandler "http://a.test" [withTimeout 100000000] initialWorld).2).1.client =
        DefaultClient := by
  decide

end Proxy
